import Mathlib

/-!
Verification development for the voice transcript engine.

The definitions below are a shallow embedding of the JavaScript sources:
`src/transcript/TranscriptManager.js`, `src/speech/SpeechRecognitionService.js`
and `src/VoiceManager.js`.  JavaScript numbers are modelled as `Int`
(timestamps) and `ℚ` (confidences and similarity scores); JS strings are Lean
`String`s (lists of unicode scalars); the `Map` of interim transcripts is a
function `String → Option InterimEntry`; the non-deterministic id generators
(`Date.now()` + `Math.random()`) are modelled by a fresh-`Nat` counter carried
in the state.  Fallible operations return `Option`/`Except`.
-/

namespace VoiceApp

/-- JS regex `\s`: the ECMAScript white-space and line-terminator characters. -/
def isJsWhitespace (c : Char) : Bool :=
  c == ' ' || c == '\t' || c == '\n' || c == '\r' ||
  c.toNat == 11 || c.toNat == 12 || c.toNat == 0xA0 || c.toNat == 0xFEFF ||
  c.toNat == 0x1680 || (0x2000 ≤ c.toNat && c.toNat ≤ 0x200A) ||
  c.toNat == 0x2028 || c.toNat == 0x2029 || c.toNat == 0x202F ||
  c.toNat == 0x205F || c.toNat == 0x3000

/-- JS regex `\w` (unicode flag off): `[A-Za-z0-9_]`. -/
def isWordChar (c : Char) : Bool :=
  (48 ≤ c.toNat && c.toNat ≤ 57) || (65 ≤ c.toNat && c.toNat ≤ 90) ||
  (97 ≤ c.toNat && c.toNat ≤ 122) || c == '_'

/-- `String.prototype.toLowerCase`, modelled on the ASCII range. -/
def jsToLowerChar (c : Char) : Char :=
  if 65 ≤ c.toNat && c.toNat ≤ 90 then Char.ofNat (c.toNat + 32) else c

def dropWhileWs : List Char → List Char
  | [] => []
  | c :: cs => if isJsWhitespace c then dropWhileWs cs else c :: cs

def jsTrimList (l : List Char) : List Char :=
  ((dropWhileWs (dropWhileWs l).reverse)).reverse

/-- `String.prototype.trim`. -/
def jsTrim (s : String) : String := ⟨jsTrimList s.data⟩

/-- Split on runs of whitespace (JS `split(/\s+/)` on an already-trimmed
    string), dropping empty fragments. -/
def splitWordsAux : List Char → List Char → List (List Char)
  | [], acc => if acc.isEmpty then [] else [acc.reverse]
  | c :: cs, acc =>
    if isJsWhitespace c then
      if acc.isEmpty then splitWordsAux cs [] else acc.reverse :: splitWordsAux cs []
    else splitWordsAux cs (c :: acc)

def splitWords (l : List Char) : List (List Char) := splitWordsAux l []

/-- Whether the first list is an initial segment of the second. -/
def listStartsWith : List Char → List Char → Bool
  | [], _ => true
  | _ :: _, [] => false
  | p :: ps, c :: cs => p == c && listStartsWith ps cs

/-- JS `String.prototype.includes`: contiguous-substring containment. -/
def listContains (needle : List Char) : List Char → Bool
  | [] => needle.isEmpty
  | c :: cs => listStartsWith needle (c :: cs) || listContains needle cs

/-- `Math.max` on two rationals, written as an `if` so that it evaluates by
    kernel reduction. -/
def ratMax (a b : ℚ) : ℚ := if a ≤ b then b else a

/-- `normalize` from `calculateTextSimilarity`:
    `text.toLowerCase().replace(/[^\w\s]/g, '').trim()`. -/
def normalizeText (s : String) : List Char :=
  jsTrimList ((s.data.map jsToLowerChar).filter
    (fun c => isWordChar c || isJsWhitespace c))

/-- `TranscriptManager.calculateTextSimilarity` (lines 350-387): the maximum of
    Jaccard word-set overlap and a fixed 0.3 substring-containment bonus. -/
def calculateTextSimilarity (text1 text2 : String) : ℚ :=
  let n1 := normalizeText text1
  let n2 := normalizeText text2
  if n1.isEmpty || n2.isEmpty then 0
  else if n1 = n2 then 1
  else
    let words1 := splitWords n1
    let words2 := splitWords n2
    let set1 := words1.dedup
    let set2 := words2.dedup
    let inter := (set1.filter (fun w => w ∈ set2)).length
    let uni := (words1 ++ words2).dedup.length
    let jaccardSimilarity : ℚ := mkRat (Int.ofNat inter) uni
    let longerText := if n1.length > n2.length then n1 else n2
    let shorterText := if n1.length ≤ n2.length then n1 else n2
    let substringMatch : ℚ := if listContains shorterText longerText then mkRat 3 10 else 0
    ratMax jaccardSimilarity substringMatch

/-! ## Data model -/

/-- A stored final transcript (the object literal built in
    `addFinalTranscript`, lines 222-232).  The field `type` is always the
    string `"final"` there; `id` abstracts the random `generateTranscriptId`. -/
structure Transcript where
  id : Nat
  streamId : String
  speaker : String
  text : String
  taggedText : String
  confidence : ℚ
  timestamp : Int
  type : String
  sessionId : Option String
deriving DecidableEq

/-- A live interim entry (the object stored in `interimTranscripts`). -/
structure InterimEntry where
  streamId : String
  speaker : String
  text : String
  taggedText : String
  timestamp : Int
  type : String
deriving DecidableEq

structure SessionMetadata where
  captureMode : String
  language : String
deriving DecidableEq

structure Session where
  id : String
  startTime : Int
  endTime : Option Int
  transcripts : List Transcript
  metadata : SessionMetadata
deriving DecidableEq

/-- The configuration switches read by the transcript code (constructor,
    lines 13-27).  Persistence/timer options are I/O concerns and out of the
    model. -/
structure Config where
  enableSpeakerTagging : Bool
  maxBufferSize : Nat
  filterDuplicates : Bool
  suppressMicrophoneWhenSystemAudio : Bool
  duplicateTimeWindow : Int
  similarityThreshold : ℚ
  preferSystemAudio : Bool
deriving DecidableEq

/-- The constructor defaults: buffer 1000, window 3000 ms, threshold 0.8,
    every boolean switch on. -/
def defaultConfig : Config :=
  { enableSpeakerTagging := true
    maxBufferSize := 1000
    filterDuplicates := true
    suppressMicrophoneWhenSystemAudio := true
    duplicateTimeWindow := 3000
    similarityThreshold := mkRat 4 5
    preferSystemAudio := true }

/-- The mutable fields of a `TranscriptManager` instance that the transcript
    algorithms read and write.  `nextId` feeds `mkTranscript` with fresh ids. -/
structure State where
  config : Config
  transcripts : List Transcript
  interimTranscripts : String → Option InterimEntry
  currentSession : Option Session
  sessionId : Option String
  nextId : Nat

def initialState (cfg : Config) : State :=
  { config := cfg
    transcripts := []
    interimTranscripts := fun _ => none
    currentSession := none
    sessionId := none
    nextId := 0 }

/-- `speakerMap` lookup with fallback to the streamId itself. -/
def getSpeakerFromStreamId (streamId : String) : String :=
  if streamId = "microphone" then "Me"
  else if streamId = "system" then "Other"
  else streamId

/-- JS `array.slice(-n)` for `n > 0`: the last `n` elements. -/
def sliceLast (l : List Transcript) (n : Nat) : List Transcript :=
  l.drop (l.length - n)

/-- `getRecentTranscripts(count)` (line 428): `this.transcripts.slice(-count)`. -/
def getRecentTranscripts (st : State) (count : Nat) : List Transcript :=
  sliceLast st.transcripts count

/-- `getRecentTranscriptsBySpeaker(speaker, count)` (lines 392-396). -/
def getRecentTranscriptsBySpeaker (st : State) (speaker : String) (count : Nat) :
    List Transcript :=
  sliceLast (st.transcripts.filter (fun t => t.speaker == speaker)) count

/-- Remove the first transcript carrying the given id (JS `findIndex` +
    `splice(index, 1)`); identity when no entry matches. -/
def removeFirstById : List Transcript → Nat → List Transcript
  | [], _ => []
  | t :: ts, tid => if t.id = tid then ts else t :: removeFirstById ts tid

/-- `removeTranscript(transcriptId)` (lines 401-423): drops the entry from the
    log and, when a session is active, from the session's list as well. -/
def removeTranscript (log : List Transcript) (sess : Option Session) (tid : Nat) :
    List Transcript × Option Session :=
  if log.any (fun t => t.id == tid) then
    (removeFirstById log tid,
     sess.map (fun s => { s with transcripts := removeFirstById s.transcripts tid }))
  else (log, sess)

/-- The `for (const existingTranscript of recentTranscripts)` loop of
    `shouldFilterDuplicate` (lines 307-338), over the already-computed list of
    recent transcripts.  Returns the filter decision together with the possibly
    removal-updated log and session. -/
def scanRecent (cfg : Config) (log : List Transcript) (sess : Option Session)
    (t : Transcript) : List Transcript → Bool × List Transcript × Option Session
  | [] => (false, log, sess)
  | e :: rest =>
    if e.streamId == t.streamId then scanRecent cfg log sess t rest
    else if |t.timestamp - e.timestamp| > cfg.duplicateTimeWindow then
      scanRecent cfg log sess t rest
    else if calculateTextSimilarity t.text e.text ≥ cfg.similarityThreshold then
      if cfg.preferSystemAudio && t.speaker == "Me" && e.speaker == "Other" then
        (true, log, sess)
      else if cfg.preferSystemAudio && t.speaker == "Other" && e.speaker == "Me" then
        let r := removeTranscript log sess e.id
        (false, r.1, r.2)
      else (true, log, sess)
    else scanRecent cfg log sess t rest

/-- Option 1 of `shouldFilterDuplicate` (lines 289-302): suppress a
    microphone transcript outright when a system-audio ("Other") transcript
    arrived within the time window before it. -/
def suppressOption1 (cfg : Config) (log : List Transcript) (t : Transcript) : Bool :=
  if cfg.suppressMicrophoneWhenSystemAudio && t.speaker == "Me" then
    match (sliceLast (log.filter (fun x => x.speaker == "Other")) 5).getLast? with
    | some latestOther =>
      let timeDiff := t.timestamp - latestOther.timestamp
      decide (0 ≤ timeDiff ∧ timeDiff ≤ cfg.duplicateTimeWindow)
    | none => false
  else false

/-- `shouldFilterDuplicate(newTranscript)` (lines 286-345).  Option 1 is the
    microphone-suppression shortcut; option 2 is the similarity scan over the
    10 most recent transcripts. -/
def shouldFilterDuplicate (cfg : Config) (log : List Transcript)
    (sess : Option Session) (t : Transcript) :
    Bool × List Transcript × Option Session :=
  if suppressOption1 cfg log t then (true, log, sess)
  else scanRecent cfg log sess t (sliceLast log 10)

/-- The candidate transcript object built in `addFinalTranscript`
    (lines 219-232). -/
def mkTranscript (st : State) (streamId text : String) (confidence : ℚ)
    (timestamp : Int) : Transcript :=
  let speaker := getSpeakerFromStreamId streamId
  let trimmed := jsTrim text
  { id := st.nextId
    streamId := streamId
    speaker := speaker
    text := trimmed
    taggedText :=
      if st.config.enableSpeakerTagging then "[" ++ speaker ++ "] " ++ trimmed
      else trimmed
    confidence := confidence
    timestamp := timestamp
    type := "final"
    sessionId := st.sessionId }

/-- `this.config.filterDuplicates && this.shouldFilterDuplicate(transcript)`
    (line 237): short-circuits, so the scan (and its removal side effect) only
    runs when filtering is enabled. -/
def dedupStep (st : State) (t : Transcript) :
    Bool × List Transcript × Option Session :=
  if st.config.filterDuplicates then
    shouldFilterDuplicate st.config st.transcripts st.currentSession t
  else (false, st.transcripts, st.currentSession)

/-- `addFinalTranscript(streamId, text, confidence, timestamp)`
    (lines 210-274).  Returns the updated state and the transcript that was
    appended (`none` when the input was empty or filtered as a duplicate). -/
def addFinalTranscript (st : State) (streamId text : String) (confidence : ℚ)
    (timestamp : Int) : State × Option Transcript :=
  if jsTrim text = "" then (st, none)
  else
    let t := mkTranscript st streamId text confidence timestamp
    let d := dedupStep st t
    if d.1 then
      ({ st with transcripts := d.2.1, currentSession := d.2.2,
                 nextId := st.nextId + 1 }, none)
    else
      let log2 := d.2.1 ++ [t]
      let sess2 := d.2.2.map (fun s => { s with transcripts := s.transcripts ++ [t] })
      let interim2 : String → Option InterimEntry :=
        fun sid => if sid = streamId then none else st.interimTranscripts sid
      let log3 := if log2.length > st.config.maxBufferSize then log2.tail else log2
      ({ st with transcripts := log3, currentSession := sess2,
                 interimTranscripts := interim2, nextId := st.nextId + 1 }, some t)

/-- `addInterimTranscript(streamId, text, timestamp)` (lines 174-205). -/
def addInterimTranscript (st : State) (streamId text : String)
    (timestamp : Int) : State :=
  if jsTrim text = "" then st
  else
    let speaker := getSpeakerFromStreamId streamId
    let trimmed := jsTrim text
    let e : InterimEntry :=
      { streamId := streamId
        speaker := speaker
        text := trimmed
        taggedText :=
          if st.config.enableSpeakerTagging then "[" ++ speaker ++ "] " ++ trimmed
          else trimmed
        timestamp := timestamp
        type := "interim" }
    { st with interimTranscripts :=
        fun sid => if sid = streamId then some e else st.interimTranscripts sid }

/-- `endSession()` (lines 123-169): stamps `endTime`, overwrites the session's
    transcript list with a copy of the log, clears the active session, and
    returns the sealed session.  File persistence is I/O and outside the model;
    it never changes the in-memory fields modelled here. -/
def endSession (st : State) (now : Int) : State × Option Session :=
  match st.currentSession with
  | none => (st, none)
  | some s =>
    let sealed : Session :=
      { s with endTime := some now, transcripts := st.transcripts }
    ({ st with currentSession := none, sessionId := none }, some sealed)

/-- `startSession(sessionOptions)` (lines 74-118): seals any previous session,
    installs a fresh one and resets the log and interim map.  The generated
    session id is a model parameter. -/
def startSession (st : State) (now : Int) (sid : String)
    (captureMode language : String) : State × String :=
  let st1 := if st.currentSession.isSome then (endSession st now).1 else st
  ({ st1 with
      sessionId := some sid
      currentSession := some
        { id := sid, startTime := now, endTime := none, transcripts := []
          metadata := { captureMode := captureMode, language := language } }
      transcripts := []
      interimTranscripts := fun _ => none }, sid)

/-! ## Decimal and JSON rendering

`exportTranscripts('json')` is `JSON.stringify(transcripts, null, 2)`.  The
printer below reproduces that output shape; JS numbers are printed as their
exact shortest plain decimal expansion (faithful for every number the model
can hold whose denominator divides a power of ten). -/

def digitChar (n : Nat) : Char := Char.ofNat (48 + n)

/-- Decimal digits, fuelled so that it unfolds by kernel reduction; the fuel
    `n + 1` in `natDigits` always suffices. -/
def natDigitsAux : Nat → Nat → List Char
  | 0, _ => []
  | fuel + 1, n =>
    if n < 10 then [digitChar n]
    else natDigitsAux fuel (n / 10) ++ [digitChar (n % 10)]

/-- Decimal digits of `n`, most significant first. -/
def natDigits (n : Nat) : List Char := natDigitsAux (n + 1) n

/-- Exactly `k` decimal digits of `v` (mod `10^k`), leading zeros kept. -/
def padDigits : Nat → Nat → List Char
  | 0, _ => []
  | k + 1, v => padDigits k (v / 10) ++ [digitChar (v % 10)]

def natToChars (n : Nat) : List Char := natDigits n

def intToChars (i : Int) : List Char :=
  (if i < 0 then ['-'] else []) ++ natDigits i.natAbs

def natToString (n : Nat) : String := String.mk (natToChars n)

/-- Fuelled multiplicity counter; the fuel `n + 1` in `factorCount` always
    suffices. -/
def factorCountAux (p : Nat) : Nat → Nat → Nat
  | 0, _ => 0
  | fuel + 1, n =>
    if 2 ≤ p ∧ n ≠ 0 ∧ n % p = 0 then 1 + factorCountAux p fuel (n / p) else 0

/-- Largest `e` with `p ^ e ∣ n` (for `p ≥ 2` and `n ≠ 0`; junk otherwise). -/
def factorCount (p : Nat) (n : Nat) : Nat := factorCountAux p (n + 1) n

/-- Number of digits after the decimal point in the shortest plain decimal
    expansion of a rational with denominator `den` (when one exists). -/
def decExponent (den : Nat) : Nat := Nat.max (factorCount 2 den) (factorCount 5 den)

/-- Shortest plain decimal expansion of `q`, assuming `q.den` divides
    `10 ^ decExponent q.den` (true of every IEEE double, hence of every number
    the JS code can print). -/
def printQChars (q : ℚ) : List Char :=
  let k := decExponent q.den
  let m := q.num.natAbs * 10 ^ k / q.den
  let sign : List Char := if q.num < 0 then ['-'] else []
  if k = 0 then sign ++ natDigits m
  else sign ++ natDigits (m / 10 ^ k) ++ '.' :: padDigits k (m % 10 ^ k)

/-- The JSON values `JSON.stringify` meets in a transcript object: only
    strings, numbers and `null` occur there. -/
inductive JVal where
  | jnull : JVal
  | jstr : String → JVal
  | jnum : ℚ → JVal
deriving DecidableEq

/-- A flat JSON object, fields in insertion order. -/
structure JObj where
  fields : List (String × JVal)
deriving DecidableEq

def toHexChar (n : Nat) : Char :=
  if n < 10 then Char.ofNat (48 + n) else Char.ofNat (87 + n)

/-- `JSON.stringify` string escaping: `\"`, `\\`, the short control escapes,
    and `\u00XX` for the remaining control characters. -/
def escapeJsonChar (c : Char) : List Char :=
  if c = '"' then ['\\', '"']
  else if c = '\\' then ['\\', '\\']
  else if c = '\n' then ['\\', 'n']
  else if c = '\r' then ['\\', 'r']
  else if c = '\t' then ['\\', 't']
  else if c.toNat = 8 then ['\\', 'b']
  else if c.toNat = 12 then ['\\', 'f']
  else if c.toNat < 32 then
    ['\\', 'u', '0', '0', toHexChar (c.toNat / 16), toHexChar (c.toNat % 16)]
  else [c]

def escapeJsonList (l : List Char) : List Char := (l.map escapeJsonChar).flatten

def printJString (s : String) : List Char :=
  '"' :: (escapeJsonList s.data ++ ['"'])

def printJVal : JVal → List Char
  | .jnull => ['n', 'u', 'l', 'l']
  | .jstr s => printJString s
  | .jnum q => printQChars q

def joinSep (sep : List Char) : List (List Char) → List Char
  | [] => []
  | [x] => x
  | x :: y :: xs => x ++ sep ++ joinSep sep (y :: xs)

/-- One `"key": value` line of `JSON.stringify(_, null, 2)` output. -/
def printField (ind : List Char) (kv : String × JVal) : List Char :=
  ind ++ printJString kv.1 ++ ':' :: ' ' :: printJVal kv.2

/-- A flat object as `JSON.stringify(_, null, 2)` prints it at indent `ind`. -/
def printJObj (ind : List Char) (o : JObj) : List Char :=
  match o.fields with
  | [] => ['{', '}']
  | _ =>
    '{' :: '\n' ::
      (joinSep [',', '\n'] (o.fields.map (printField (ind ++ [' ', ' '])))
        ++ '\n' :: (ind ++ ['}']))

/-- An array of flat objects as `JSON.stringify(_, null, 2)` prints it. -/
def printJDoc (objs : List JObj) : List Char :=
  match objs with
  | [] => ['[', ']']
  | _ =>
    '[' :: '\n' ::
      (joinSep [',', '\n'] (objs.map (fun o => ' ' :: ' ' :: printJObj [' ', ' '] o))
        ++ ['\n', ']'])

def jvalOfSessionId : Option String → JVal
  | some s => .jstr s
  | none => .jnull

/-- The JSON image of a transcript object: the nine fields in the insertion
    order of the object literal in `addFinalTranscript`. -/
def transcriptToJObj (t : Transcript) : JObj :=
  ⟨[("id", .jnum (mkRat (Int.ofNat t.id) 1)),
    ("streamId", .jstr t.streamId),
    ("speaker", .jstr t.speaker),
    ("text", .jstr t.text),
    ("taggedText", .jstr t.taggedText),
    ("confidence", .jnum t.confidence),
    ("timestamp", .jnum (mkRat t.timestamp 1)),
    ("type", .jstr t.type),
    ("sessionId", jvalOfSessionId t.sessionId)]⟩

/-- `JSON.stringify(transcripts, null, 2)`. -/
def stringifyTranscripts (ts : List Transcript) : String :=
  String.mk (printJDoc (ts.map transcriptToJObj))

/-! ## The remaining export formats (`txt`, `csv`, `srt`) -/

def padStartZeros (k : Nat) (l : List Char) : List Char :=
  List.replicate (k - l.length) '0' ++ l

def pad2 (n : Nat) : List Char := padStartZeros 2 (natDigits n)

/-- `formatSRTTime` (lines 578-581): `hh:mm:ss,mmm` of the timestamp.  The
    source reads `getHours()` etc. in the local timezone; the model fixes the
    zone to UTC (no claim inspects the rendered clock time). -/
def formatSRTTime (ts : Int) : String :=
  let hours := ((ts.ediv 3600000).emod 24).natAbs
  let minutes := ((ts.ediv 60000).emod 60).natAbs
  let seconds := ((ts.ediv 1000).emod 60).natAbs
  let millis := (ts.emod 1000).natAbs
  String.mk (pad2 hours ++ ':' :: pad2 minutes ++ ':' :: pad2 seconds
    ++ ',' :: padStartZeros 3 (natDigits millis))

/-- The end time `generateSRT` gives entry `i` (lines 562-564): the next
    entry's start, or start + 3000 ms for the last entry. -/
def srtEndTime (ts : List Transcript) (i : Nat) : Int :=
  match ts[i + 1]? with
  | some next => next.timestamp
  | none =>
    match ts[i]? with
    | some t => t.timestamp + 3000
    | none => 0

/-- One SRT block of `generateSRT` (lines 566-569). -/
def srtEntry (ts : List Transcript) (i : Nat) (t : Transcript) : String :=
  natToString (i + 1) ++ "\n"
    ++ formatSRTTime t.timestamp ++ " --> " ++ formatSRTTime (srtEndTime ts i) ++ "\n"
    ++ t.taggedText ++ "\n\n"

/-- `generateSRT(transcripts)` (lines 556-573). -/
def generateSRT (ts : List Transcript) : String :=
  String.join ((ts.enum).map (fun p => srtEntry ts p.1 p.2))

/-- `new Date(t).toLocaleTimeString()`, modelled as `hh:mm:ss` in UTC (locale
    and zone are host concerns; no claim inspects this text). -/
def localeTimeString (ts : Int) : String :=
  let hours := ((ts.ediv 3600000).emod 24).natAbs
  let minutes := ((ts.ediv 60000).emod 60).natAbs
  let seconds := ((ts.ediv 1000).emod 60).natAbs
  String.mk (pad2 hours ++ ':' :: pad2 minutes ++ ':' :: pad2 seconds)

/-- `new Date(t).toISOString()`; calendar-date formatting is abstracted to the
    raw millisecond count (no claim inspects this text). -/
def isoString (ts : Int) : String := String.mk (intToChars ts)

def txtLine (t : Transcript) : String :=
  "[" ++ localeTimeString t.timestamp ++ "] " ++ t.taggedText

def csvRow (t : Transcript) : String :=
  "\"" ++ isoString t.timestamp ++ "\",\"" ++ t.speaker ++ "\",\"" ++ t.text
    ++ "\",\"" ++ String.mk (printQChars t.confidence) ++ "\""

def jsToLower (s : String) : String := ⟨s.data.map jsToLowerChar⟩

/-- `exportTranscripts(format, options)` (lines 524-551).  The `default`
    switch arm throws; the model returns it as `Except.error`. -/
def exportTranscripts (st : State) (format : String) (sessionOnly : Bool) :
    Except String String :=
  let transcripts :=
    match st.currentSession with
    | some s => if sessionOnly then s.transcripts else st.transcripts
    | none => st.transcripts
  let fmt := jsToLower format
  if fmt = "json" then .ok (stringifyTranscripts transcripts)
  else if fmt = "txt" then
    .ok (String.intercalate "\n" (transcripts.map txtLine))
  else if fmt = "csv" then
    .ok ("Timestamp,Speaker,Text,Confidence\n"
      ++ String.intercalate "\n" (transcripts.map csvRow))
  else if fmt = "srt" then .ok (generateSRT transcripts)
  else .error ("Unsupported export format: " ++ format)

/-! ## A JSON reader for the fragment the export emits

`JSON.parse`, restricted to the grammar `exportTranscripts('json')` can
produce: an array of flat objects whose values are strings, plain decimal
numbers or `null`, with arbitrary whitespace between tokens. -/

def isDigitChar (c : Char) : Bool := 48 ≤ c.toNat && c.toNat ≤ 57

def isJsonWs (c : Char) : Bool := c == ' ' || c == '\t' || c == '\n' || c == '\r'

def skipWs : List Char → List Char
  | [] => []
  | c :: cs => if isJsonWs c then skipWs cs else c :: cs

def hexVal (c : Char) : Option Nat :=
  if 48 ≤ c.toNat && c.toNat ≤ 57 then some (c.toNat - 48)
  else if 97 ≤ c.toNat && c.toNat ≤ 102 then some (c.toNat - 87)
  else if 65 ≤ c.toNat && c.toNat ≤ 70 then some (c.toNat - 55)
  else none

/-- The two-character escapes `JSON.parse` accepts: the self-representing
    trio, the named control characters, and backspace / form feed. -/
def unescapeChar (e : Char) : Option Char :=
  if e = '"' ∨ e = '\\' ∨ e = '/' then some e
  else if e = 'n' then some '\n'
  else if e = 'r' then some '\r'
  else if e = 't' then some '\t'
  else if e = 'b' then some (Char.ofNat 8)
  else if e = 'f' then some (Char.ofNat 12)
  else none

/-- String body after the opening quote; raw control characters are rejected
    as `JSON.parse` rejects them. -/
def parseStringAux (acc : List Char) : List Char → Option (List Char × List Char)
  | [] => none
  | c :: rest =>
    if c = '"' then some (acc.reverse, rest)
    else if c = '\\' then
      match rest with
      | 'u' :: a :: b :: x :: d :: rst =>
        (match hexVal a, hexVal b, hexVal x, hexVal d with
         | some va, some vb, some vc, some vd =>
           parseStringAux (Char.ofNat (((va * 16 + vb) * 16 + vc) * 16 + vd) :: acc) rst
         | _, _, _, _ => none)
      | e :: rst =>
        (match unescapeChar e with
         | some ch => parseStringAux (ch :: acc) rst
         | none => none)
      | [] => none
    else if c.toNat < 32 then none
    else parseStringAux (c :: acc) rest

/-- A run of digits: value, digit count, and the remaining input. -/
def takeDigitsAux (acc cnt : Nat) : List Char → Nat × Nat × List Char
  | [] => (acc, cnt, [])
  | c :: cs =>
    if isDigitChar c then takeDigitsAux (acc * 10 + (c.toNat - 48)) (cnt + 1) cs
    else (acc, cnt, c :: cs)

def headIsDigit : List Char → Bool
  | [] => false
  | c :: _ => isDigitChar c

def headIs (c : Char) : List Char → Bool
  | [] => false
  | x :: _ => x == c

/-- A plain decimal JSON number (optional sign, digits, optional fraction
    digits — the only shape the printer emits). -/
def parseNumber (cs : List Char) : Option (ℚ × List Char) :=
  let s := if cs.head? = some '-' then (true, cs.tail) else (false, cs)
  if headIsDigit s.2 then
    let d := takeDigitsAux 0 0 s.2
    if d.2.2.head? = some '.' then
      if headIsDigit d.2.2.tail then
        let f := takeDigitsAux 0 0 d.2.2.tail
        some (mkRat ((if s.1 then (-1 : Int) else 1)
          * Int.ofNat (d.1 * 10 ^ f.2.1 + f.1)) (10 ^ f.2.1), f.2.2)
      else none
    else some (mkRat ((if s.1 then (-1 : Int) else 1) * Int.ofNat d.1) 1, d.2.2)
  else none

def parseJVal (cs : List Char) : Option (JVal × List Char) :=
  if cs.head? = some '"' then
    (parseStringAux [] cs.tail).map (fun p => (JVal.jstr (String.mk p.1), p.2))
  else if listStartsWith ['n', 'u', 'l', 'l'] cs then
    some (JVal.jnull, cs.drop 4)
  else if headIs '-' cs || headIsDigit cs then
    (parseNumber cs).map (fun p => (JVal.jnum p.1, p.2))
  else none

/-- One-or-more `"key": value` fields, comma-separated, up to the closing
    brace (the empty object is handled by the caller). -/
def parseFields : Nat → List Char → Option (List (String × JVal) × List Char)
  | 0, _ => none
  | fuel + 1, cs =>
    let s := skipWs cs
    if s.head? = some '"' then
      match parseStringAux [] s.tail with
      | some (k, r1) =>
        let s1 := skipWs r1
        if s1.head? = some ':' then
          match parseJVal (skipWs s1.tail) with
          | some (v, r3) =>
            let s3 := skipWs r3
            if s3.head? = some ',' then
              match parseFields fuel s3.tail with
              | some (ms, r5) => some ((String.mk k, v) :: ms, r5)
              | none => none
            else if s3.head? = some '}' then some ([(String.mk k, v)], s3.tail)
            else none
          | none => none
        else none
      | none => none
    else none

def parseJObj (cs : List Char) : Option (JObj × List Char) :=
  if cs.head? = some '{' then
    let r := cs.tail
    if (skipWs r).head? = some '}' then some (⟨[]⟩, (skipWs r).tail)
    else (parseFields (r.length + 1) r).map (fun p => (⟨p.1⟩, p.2))
  else none

/-- One-or-more comma-separated objects up to the closing bracket. -/
def parseObjs : Nat → List Char → Option (List JObj × List Char)
  | 0, _ => none
  | fuel + 1, cs =>
    match parseJObj (skipWs cs) with
    | some (o, r) =>
      let s := skipWs r
      if s.head? = some ',' then
        match parseObjs fuel s.tail with
        | some (os, r2) => some (o :: os, r2)
        | none => none
      else if s.head? = some ']' then some ([o], s.tail)
      else none
    | none => none

/-- A complete array-of-flat-objects document. -/
def parseJDoc (cs : List Char) : Option (List JObj × List Char) :=
  let s := skipWs cs
  if s.head? = some '[' then
    let r := s.tail
    if (skipWs r).head? = some ']' then some ([], (skipWs r).tail)
    else parseObjs (r.length + 1) r
  else none

def jlookup (o : JObj) (k : String) : Option JVal :=
  (o.fields.find? (fun kv => kv.1 == k)).map (fun kv => kv.2)

def qToNat? (q : ℚ) : Option Nat :=
  if q.den = 1 ∧ 0 ≤ q.num then some q.num.toNat else none

def qToInt? (q : ℚ) : Option Int :=
  if q.den = 1 then some q.num else none

def decodeSessionId : JVal → Option (Option String)
  | .jnull => some none
  | .jstr s => some (some s)
  | .jnum _ => none

/-- Read a parsed flat object back as a transcript record. -/
def decodeTranscript (o : JObj) : Option Transcript :=
  match jlookup o "id", jlookup o "streamId", jlookup o "speaker",
        jlookup o "text", jlookup o "taggedText", jlookup o "confidence",
        jlookup o "timestamp", jlookup o "type", jlookup o "sessionId" with
  | some (.jnum qid), some (.jstr sid), some (.jstr sp), some (.jstr tx),
    some (.jstr tg), some (.jnum conf), some (.jnum qts), some (.jstr ty),
    some sv =>
    (match qToNat? qid, qToInt? qts, decodeSessionId sv with
     | some idv, some tsv, some sess =>
       some { id := idv, streamId := sid, speaker := sp, text := tx
              taggedText := tg, confidence := conf, timestamp := tsv
              type := ty, sessionId := sess }
     | _, _, _ => none)
  | _, _, _, _, _, _, _, _, _ => none

/-- Decode every parsed object, failing if any one fails. -/
def decodeAll : List JObj → Option (List Transcript)
  | [] => some []
  | o :: os =>
    match decodeTranscript o, decodeAll os with
    | some t, some ts => some (t :: ts)
    | _, _ => none

/-- `JSON.parse` on an export string followed by reading the array back as
    transcript records; `none` models a parse error. -/
def jsonParseTranscripts (s : String) : Option (List Transcript) :=
  match parseJDoc s.data with
  | some (objs, rest) =>
    if (skipWs rest).isEmpty then decodeAll objs else none
  | none => none

/-- A rational with a finite decimal expansion — the numbers (all IEEE
    doubles in JS) that the plain-decimal printer represents exactly. -/
def FiniteDecimal (q : ℚ) : Prop := q.den ∣ 10 ^ decExponent q.den

instance (q : ℚ) : Decidable (FiniteDecimal q) := by
  unfold FiniteDecimal; infer_instance

/-- The printable JSON leaf values: any string or null, and numbers with a
    finite decimal expansion. -/
def JValPrintable : JVal → Prop
  | .jnum q => FiniteDecimal q
  | _ => True

/-- A remainder that cannot extend a parsed number: empty or headed by a
    character that is neither a digit nor a decimal point.  Every delimiter
    the printer emits after a number (`,`, newline, `}`) qualifies. -/
def numDelim : List Char → Bool
  | [] => true
  | c :: _ => !(isDigitChar c || c == '.')

/-- A remainder that cannot extend a digit run. -/
def noDigitStart : List Char → Bool
  | [] => true
  | c :: _ => !isDigitChar c

/-! ## VoiceManager / SpeechRecognitionService orchestration

From `src/VoiceManager.js` and `src/speech/SpeechRecognitionService.js`.  The
external effects (Azure SDK session opening, audio-capture start) are an
environment of success/failure switches; the speech service's open sessions
are the key set of its `recognizers` map. -/

structure VMEnv where
  micOpenFails : Bool
  sysOpenFails : Bool
  captureStarts : Bool
  dualCapture : Bool
deriving DecidableEq

structure VMState where
  isInitialized : Bool
  isRecording : Bool
  recordingStartTime : Option Int
  currentSessionId : Option String
  activeStreams : List String
  tm : State

/-- `SpeechRecognitionService.startRecognition(streamId)` (lines 58-119):
    `false` without change when the stream is already open; a synchronous SDK
    failure is caught inside the method, which then returns `false` without
    registering the stream — no exception ever escapes. -/
def svcStartRecognition (streams : List String) (streamId : String)
    (openFails : Bool) : Bool × List String :=
  if streamId ∈ streams then (false, streams)
  else if openFails then (false, streams)
  else (true, streamId :: streams)

/-- `VoiceManager.stopRecording()` (lines 190-244): returns `false` at once
    when no recording is in progress, otherwise stops capture, closes every
    recognition stream and seals the transcript session. -/
def vmStopRecording (vm : VMState) (now : Int) : VMState × Bool :=
  if !vm.isRecording then (vm, false)
  else
    let e := endSession vm.tm now
    ({ vm with isRecording := false, activeStreams := [], tm := e.1,
               currentSessionId := none, recordingStartTime := none }, true)

/-- `VoiceManager.startRecording(options)` (lines 120-185).  The transcript
    session is opened first; recognition-open results are not inspected; a
    thrown error (uninitialized manager, capture failure) lands in the catch
    block, which calls `stopRecording()` and returns `false`. -/
def vmStartRecording (vm : VMState) (env : VMEnv) (now : Int) (sid : String)
    (captureMode language : String) : VMState × Bool :=
  if !vm.isInitialized then ((vmStopRecording vm now).1, false)
  else if vm.isRecording then (vm, false)
  else
    let vm1 := { vm with recordingStartTime := some now }
    let s := startSession vm1.tm now sid captureMode language
    let vm2 := { vm1 with tm := s.1, currentSessionId := some s.2 }
    let streams1 :=
      if env.dualCapture then
        let r1 := svcStartRecognition vm2.activeStreams "microphone" env.micOpenFails
        (svcStartRecognition r1.2 "system" env.sysOpenFails).2
      else
        (svcStartRecognition vm2.activeStreams "microphone" env.micOpenFails).2
    let vm3 := { vm2 with activeStreams := streams1 }
    if !env.captureStarts then ((vmStopRecording vm3 now).1, false)
    else ({ vm3 with isRecording := true }, true)

/-! ## Reachable transcript states -/

/-- One recorded `addFinalTranscript` invocation. -/
structure FinalCall where
  streamId : String
  text : String
  confidence : ℚ
  timestamp : Int

def runFinals : State → List FinalCall → State
  | st, [] => st
  | st, c :: cs =>
    runFinals (addFinalTranscript st c.streamId c.text c.confidence c.timestamp).1 cs

/-- Two retained transcripts violating the dedup goal: different streams,
    within the configured window, similarity at or above the threshold. -/
def crossStreamNearDup (cfg : Config) (t1 t2 : Transcript) : Prop :=
  t1.streamId ≠ t2.streamId ∧
  |t1.timestamp - t2.timestamp| ≤ cfg.duplicateTimeWindow ∧
  calculateTextSimilarity t1.text t2.text ≥ cfg.similarityThreshold

instance (cfg : Config) (t1 t2 : Transcript) : Decidable (crossStreamNearDup cfg t1 t2) := by
  unfold crossStreamNearDup; infer_instance

/-- No two retained transcripts are cross-stream near-duplicates. -/
def dedupRetentionInvariant (st : State) : Prop :=
  ∀ t1 ∈ st.transcripts, ∀ t2 ∈ st.transcripts, ¬ crossStreamNearDup st.config t1 t2

instance (st : State) : Decidable (dedupRetentionInvariant st) := by
  unfold dedupRetentionInvariant; infer_instance

/-! ## Concrete fixtures used by witnesses -/

/-- A stored system-audio transcript used as a concrete log entry. -/
def sampleEntry : Transcript :=
  { id := 0, streamId := "system", speaker := "Other", text := "aaa",
    taggedText := "[Other] aaa", confidence := 0, timestamp := 0,
    type := "final", sessionId := none }

/-- A state whose ring buffer (capacity 1) is already full. -/
def smallBufferState : State :=
  { config := { defaultConfig with maxBufferSize := 1 }
    transcripts := [sampleEntry]
    interimTranscripts := fun _ => none
    currentSession := none
    sessionId := none
    nextId := 1 }

/-- A default-configuration state holding one stored transcript. -/
def oneEntryState : State :=
  { config := defaultConfig
    transcripts := [sampleEntry]
    interimTranscripts := fun _ => none
    currentSession := none
    sessionId := none
    nextId := 1 }

/-- An initialized, idle voice manager. -/
def vmReady : VMState :=
  { isInitialized := true, isRecording := false, recordingStartTime := none,
    currentSessionId := none, activeStreams := [], tm := initialState defaultConfig }

/-- The environment of the C2 scenario: the second (system) recognition
    session fails to open, everything else succeeds. -/
def envSecondOpenFails : VMEnv :=
  { micOpenFails := false, sysOpenFails := true, captureStarts := true,
    dualCapture := true }

/-- A stored transcript with a fractional confidence and a session tag, used
    to exercise the JSON export round trip on a concrete state. -/
def rtEntry : Transcript :=
  { id := 7, streamId := "microphone", speaker := "Me", text := "hello",
    taggedText := "[Me] hello", confidence := mkRat 9 10, timestamp := 1234,
    type := "final", sessionId := some "session_1" }

/-- A default-configuration state holding `rtEntry`. -/
def rtState : State :=
  { config := defaultConfig
    transcripts := [rtEntry]
    interimTranscripts := fun _ => none
    currentSession := none
    sessionId := none
    nextId := 8 }

/-! ## Helper lemmas -/

theorem removeFirstById_length_le (l : List Transcript) (tid : Nat) :
    (removeFirstById l tid).length ≤ l.length := by
  induction l with
  | nil => simp [removeFirstById]
  | cons t ts ih =>
    simp only [removeFirstById]
    split
    · simp
    · simpa using Nat.succ_le_succ ih

theorem removeFirstById_length_lt (l : List Transcript) (tid : Nat)
    (h : ∃ x ∈ l, x.id = tid) : (removeFirstById l tid).length < l.length := by
  induction l with
  | nil => simp at h
  | cons t ts ih =>
    simp only [removeFirstById]
    split
    · simp
    · rename_i hne
      obtain ⟨x, hx, hid⟩ := h
      rcases List.mem_cons.mp hx with rfl | hx'
      · exact absurd hid hne
      · simpa using Nat.succ_lt_succ (ih ⟨x, hx', hid⟩)

theorem removeTranscript_fst_length_le (log : List Transcript)
    (sess : Option Session) (tid : Nat) :
    (removeTranscript log sess tid).1.length ≤ log.length := by
  unfold removeTranscript
  split
  · exact removeFirstById_length_le log tid
  · exact Nat.le_refl _

theorem removeTranscript_fst_length_lt (log : List Transcript)
    (sess : Option Session) (tid : Nat) (h : ∃ x ∈ log, x.id = tid) :
    (removeTranscript log sess tid).1.length < log.length := by
  obtain ⟨x, hx, hid⟩ := h
  unfold removeTranscript
  rw [if_pos (List.any_eq_true.mpr ⟨x, hx, by simp [hid]⟩)]
  exact removeFirstById_length_lt log tid ⟨x, hx, hid⟩

theorem scanRecent_log_length_le (cfg : Config) (log : List Transcript)
    (sess : Option Session) (t : Transcript) (lst : List Transcript) :
    (scanRecent cfg log sess t lst).2.1.length ≤ log.length := by
  induction lst with
  | nil => simp [scanRecent]
  | cons e rest ih =>
    simp only [scanRecent]
    repeat' split
    all_goals first
      | exact ih
      | exact Nat.le_refl _
      | exact removeTranscript_fst_length_le log sess e.id

theorem shouldFilterDuplicate_log_length_le (cfg : Config) (log : List Transcript)
    (sess : Option Session) (t : Transcript) :
    (shouldFilterDuplicate cfg log sess t).2.1.length ≤ log.length := by
  unfold shouldFilterDuplicate
  by_cases h : suppressOption1 cfg log t = true
  · rw [if_pos h]
  · rw [if_neg h]
    exact scanRecent_log_length_le cfg log sess t _

theorem dedupStep_log_length_le (st : State) (t : Transcript) :
    (dedupStep st t).2.1.length ≤ st.transcripts.length := by
  unfold dedupStep
  split
  · exact shouldFilterDuplicate_log_length_le _ _ _ _
  · exact Nat.le_refl _

theorem sliceLast_subset (l : List Transcript) (n : Nat) :
    ∀ e ∈ sliceLast l n, e ∈ l :=
  fun _ he => List.mem_of_mem_drop he

/-- If the scan came back "keep" with the log unchanged, no transcript on the
    scanned list was a cross-stream in-window match at or above the threshold. -/
theorem scanRecent_no_match (cfg : Config) (log : List Transcript)
    (sess : Option Session) (t : Transcript) :
    ∀ lst : List Transcript, (∀ e ∈ lst, e ∈ log) →
    (scanRecent cfg log sess t lst).1 = false →
    (scanRecent cfg log sess t lst).2.1 = log →
    ∀ e ∈ lst, ¬ crossStreamNearDup cfg t e := by
  intro lst
  induction lst with
  | nil => intro _ _ _ e he; simp at he
  | cons e0 rest ih =>
    intro hsub h1 h2 e he
    have hsub' : ∀ x ∈ rest, x ∈ log := fun x hx => hsub x (List.mem_cons_of_mem _ hx)
    simp only [scanRecent] at h1 h2
    by_cases hstream : (e0.streamId == t.streamId) = true
    · rw [if_pos hstream] at h1 h2
      rcases List.mem_cons.mp he with rfl | he'
      · intro hc
        exact hc.1 (beq_iff_eq.mp hstream).symm
      · exact ih hsub' h1 h2 e he'
    · rw [if_neg hstream] at h1 h2
      by_cases hwin : |t.timestamp - e0.timestamp| > cfg.duplicateTimeWindow
      · rw [if_pos hwin] at h1 h2
        rcases List.mem_cons.mp he with rfl | he'
        · intro hc
          exact absurd hc.2.1 (not_le.mpr hwin)
        · exact ih hsub' h1 h2 e he'
      · rw [if_neg hwin] at h1 h2
        by_cases hsim : calculateTextSimilarity t.text e0.text ≥ cfg.similarityThreshold
        · rw [if_pos hsim] at h1 h2
          -- every arm of the preference split contradicts `h1` or `h2`
          exfalso
          by_cases hp1 : (cfg.preferSystemAudio && t.speaker == "Me"
              && e0.speaker == "Other") = true
          · rw [if_pos hp1] at h1; simp at h1
          · rw [if_neg hp1] at h1 h2
            by_cases hp2 : (cfg.preferSystemAudio && t.speaker == "Other"
                && e0.speaker == "Me") = true
            · rw [if_pos hp2] at h2
              have hlen := removeTranscript_fst_length_lt log sess e0.id
                ⟨e0, hsub e0 (List.mem_cons_self _ _), rfl⟩
              have h2' : (removeTranscript log sess e0.id).1 = log := h2
              rw [h2'] at hlen
              exact Nat.lt_irrefl _ hlen
            · rw [if_neg hp2] at h1; simp at h1
        · rw [if_neg hsim] at h1 h2
          rcases List.mem_cons.mp he with rfl | he'
          · intro hc
            exact hsim hc.2.2
          · exact ih hsub' h1 h2 e he'

/-- In the retained branch (non-empty text, not filtered), `addFinalTranscript`
    returns the freshly built transcript. -/
theorem addFinal_retained_some (st : State) (streamId text : String) (conf : ℚ)
    (ts : Int) (he : ¬ jsTrim text = "")
    (hd : ¬ (dedupStep st (mkTranscript st streamId text conf ts)).1 = true) :
    (addFinalTranscript st streamId text conf ts).2
      = some (mkTranscript st streamId text conf ts) := by
  simp only [addFinalTranscript]
  rw [if_neg he]
  simp only [if_neg hd]

/-- In the retained branch, the resulting log is the scan-adjusted log with
    the new transcript appended, trimmed by one at the front when it would
    exceed the buffer bound. -/
theorem addFinal_retained_transcripts (st : State) (streamId text : String)
    (conf : ℚ) (ts : Int) (he : ¬ jsTrim text = "")
    (hd : ¬ (dedupStep st (mkTranscript st streamId text conf ts)).1 = true) :
    (addFinalTranscript st streamId text conf ts).1.transcripts =
      (if ((dedupStep st (mkTranscript st streamId text conf ts)).2.1
            ++ [mkTranscript st streamId text conf ts]).length
          > st.config.maxBufferSize
       then ((dedupStep st (mkTranscript st streamId text conf ts)).2.1
            ++ [mkTranscript st streamId text conf ts]).tail
       else (dedupStep st (mkTranscript st streamId text conf ts)).2.1
            ++ [mkTranscript st streamId text conf ts]) := by
  simp only [addFinalTranscript]
  rw [if_neg he]
  simp only [if_neg hd]

/-! ## C3, C5, C6, C7, C10 -/

/-- C3: preferred-source override.  From an empty log under the default
    configuration (window 3000 ms, threshold 0.8, system audio preferred),
    a microphone final "how are you" at t=1000 with confidence 0.7 followed by
    a system final "how are you" at t=1200 with confidence 0.9 leaves exactly
    one transcript: the system one, speaker "Other", confidence 0.9 — the
    earlier microphone transcript is retroactively removed. -/
theorem preferred_source_override_scenario :
    ((addFinalTranscript
        (addFinalTranscript (initialState defaultConfig)
          "microphone" "how are you" (mkRat 7 10) 1000).1
        "system" "how are you" (mkRat 9 10) 1200).1.transcripts.map
      (fun t => (t.streamId, t.speaker, t.text, t.confidence, t.timestamp)))
      = [("system", "Other", "how are you", mkRat 9 10, 1200)] ∧
    (mkRat 9 10 : ℚ) = 9/10 := by
  constructor
  · decide
  · rw [Rat.mkRat_eq_div]; norm_num

/-- C6: similarity boundary.  "can you hear me" vs "can you hear me now" has
    word-set intersection 4 and union 5, so the similarity is exactly 0.8, and
    the duplicate scan (here with the microphone-suppression shortcut disabled
    so that the similarity path itself decides) filters the pair at threshold
    0.8 because the comparison is inclusive (`similarity >= threshold`). -/
theorem similarity_boundary_inclusive :
    calculateTextSimilarity "can you hear me" "can you hear me now" = 4/5 ∧
    (shouldFilterDuplicate
      { defaultConfig with suppressMicrophoneWhenSystemAudio := false }
      [{ id := 0, streamId := "system", speaker := "Other",
         text := "can you hear me now", taggedText := "[Other] can you hear me now",
         confidence := 0, timestamp := 1000, type := "final", sessionId := none }]
      none
      { id := 1, streamId := "microphone", speaker := "Me",
        text := "can you hear me", taggedText := "[Me] can you hear me",
        confidence := 0, timestamp := 1200, type := "final", sessionId := none }).1
      = true := by
  constructor
  · have h : calculateTextSimilarity "can you hear me" "can you hear me now"
        = mkRat 4 5 := by decide
    rw [h, Rat.mkRat_eq_div]; norm_num
  · decide

/-- C7: empty input is silently ignored.  For every state and stream, a final
    or interim submission whose text trims to the empty string creates nothing
    and leaves the whole state (log, interim map, session) untouched; the model
    is total, matching the source's catch-everything error handling. -/
theorem empty_input_silently_ignored (st : State) (streamId text : String)
    (conf : ℚ) (ts : Int) (h : jsTrim text = "") :
    addFinalTranscript st streamId text conf ts = (st, none) ∧
    addInterimTranscript st streamId text ts = st := by
  constructor
  · simp [addFinalTranscript, h]
  · simp [addInterimTranscript, h]

theorem empty_input_silently_ignored_witness :
    jsTrim "  \t " = "" ∧
    addFinalTranscript (initialState defaultConfig) "microphone" "  \t " 0 5
      = (initialState defaultConfig, none) ∧
    addInterimTranscript (initialState defaultConfig) "system" "  \t " 5
      = initialState defaultConfig := by
  have h := empty_input_silently_ignored (initialState defaultConfig)
    "microphone" "  \t " 0 5 (by decide)
  have h2 := empty_input_silently_ignored (initialState defaultConfig)
    "system" "  \t " 0 5 (by decide)
  exact ⟨by decide, h.1, h2.2⟩

/-- C5 fails on the code: a final transcript that is filtered as a duplicate
    returns before the `interimTranscripts.delete(streamId)` line, so the
    stream's interim entry survives its final.  Concretely: a system final
    "hello world" at t=0, a microphone interim at t=50, then a microphone
    final "hello world" at t=100 — the microphone final is suppressed (system
    audio active within the window) and the microphone interim entry remains. -/
theorem interim_survives_filtered_final :
    ¬ (∀ (st : State) (streamId text : String) (conf : ℚ) (ts : Int),
        jsTrim text ≠ "" →
        (addFinalTranscript st streamId text conf ts).1.interimTranscripts streamId
          = none) := by
  intro h
  have h2 := h
    (addInterimTranscript
      (addFinalTranscript (initialState defaultConfig) "system" "hello world" 0 0).1
      "microphone" "hello there" 50)
    "microphone" "hello world" 0 100 (by decide)
  exact absurd h2 (by decide)

/-- C5, amended: the interim entry for a stream is cleared by any of the
    stream's finals that is actually retained (returned as `some`); a final
    filtered as a duplicate leaves the interim entry in place. -/
theorem interim_cleared_on_retained_final (st : State) (streamId text : String)
    (conf : ℚ) (ts : Int) (t : Transcript)
    (h : (addFinalTranscript st streamId text conf ts).2 = some t) :
    (addFinalTranscript st streamId text conf ts).1.interimTranscripts streamId
      = none := by
  by_cases he : jsTrim text = ""
  · exfalso; simp [addFinalTranscript, he] at h
  · by_cases hd : (dedupStep st (mkTranscript st streamId text conf ts)).1 = true
    · exfalso; simp [addFinalTranscript, he, hd] at h
    · simp [addFinalTranscript, he, hd]

theorem interim_cleared_on_retained_final_witness :
    (addFinalTranscript (initialState defaultConfig) "microphone" "hi" 0 0).2
      = some (mkTranscript (initialState defaultConfig) "microphone" "hi" 0 0) ∧
    (addFinalTranscript (initialState defaultConfig) "microphone" "hi" 0 0).1.interimTranscripts
      "microphone" = none :=
  ⟨by decide,
   interim_cleared_on_retained_final (initialState defaultConfig) "microphone" "hi" 0 0
     (mkTranscript (initialState defaultConfig) "microphone" "hi" 0 0) (by decide)⟩

/-- C10: `endSession` seals the session as an exact snapshot of the bounded
    log: the sealed session's transcript list is the log at seal time, hence
    it is within `maxBufferSize` whenever the log is, and any transcript no
    longer in the log (evicted by the ring buffer or removed by dedup) is
    absent from the sealed session. -/
theorem end_session_seals_log_snapshot (st : State) (now : Int) (s : Session)
    (hs : st.currentSession = some s)
    (hlen : st.transcripts.length ≤ st.config.maxBufferSize) :
    ∃ sealed, (endSession st now).2 = some sealed ∧
      sealed.transcripts = st.transcripts ∧
      sealed.transcripts.length ≤ st.config.maxBufferSize ∧
      ∀ t, t ∉ st.transcripts → t ∉ sealed.transcripts := by
  refine ⟨{ s with endTime := some now, transcripts := st.transcripts },
    ?_, rfl, hlen, fun t ht => ht⟩
  simp [endSession, hs]

/-- C4: the log is a bounded FIFO buffer.  `addFinalTranscript` keeps the log
    within `maxBufferSize` (the constructor's `|| 1000` default makes the
    bound at least 1), and when an append would exceed the bound, exactly the
    oldest entry of the pre-append log is evicted while the order of the rest
    is preserved. -/
theorem bounded_fifo_log (st : State) (streamId text : String) (conf : ℚ)
    (ts : Int) (hmax : 1 ≤ st.config.maxBufferSize)
    (hlen : st.transcripts.length ≤ st.config.maxBufferSize) :
    (addFinalTranscript st streamId text conf ts).1.transcripts.length
      ≤ st.config.maxBufferSize ∧
    (∀ t, (addFinalTranscript st streamId text conf ts).2 = some t →
      ((dedupStep st (mkTranscript st streamId text conf ts)).2.1.length
          = st.config.maxBufferSize →
        (addFinalTranscript st streamId text conf ts).1.transcripts
          = (dedupStep st (mkTranscript st streamId text conf ts)).2.1.tail ++ [t]) ∧
      ((dedupStep st (mkTranscript st streamId text conf ts)).2.1.length
          < st.config.maxBufferSize →
        (addFinalTranscript st streamId text conf ts).1.transcripts
          = (dedupStep st (mkTranscript st streamId text conf ts)).2.1 ++ [t])) := by
  by_cases he : jsTrim text = ""
  · refine ⟨by simpa [addFinalTranscript, he] using hlen, fun t h => ?_⟩
    simp [addFinalTranscript, he] at h
  · have hLlen := dedupStep_log_length_le st (mkTranscript st streamId text conf ts)
    by_cases hd : (dedupStep st (mkTranscript st streamId text conf ts)).1 = true
    · refine ⟨?_, fun t h => ?_⟩
      · simp only [addFinalTranscript, he, hd]
        exact Nat.le_trans hLlen hlen
      · simp [addFinalTranscript, he, hd] at h
    · have hform := addFinal_retained_transcripts st streamId text conf ts he hd
      have hsome := addFinal_retained_some st streamId text conf ts he hd
      refine ⟨?_, fun t h => ?_⟩
      · rw [hform]
        split
        · rename_i hgt
          simp only [List.length_tail, List.length_append, List.length_singleton]
          omega
        · rename_i hle
          simp only [List.length_append, List.length_singleton] at hle ⊢
          omega
      · rw [hsome] at h
        obtain rfl : mkTranscript st streamId text conf ts = t := by
          simpa using h
        constructor
        · intro heq
          rw [hform, if_pos
            (by simp only [List.length_append, List.length_singleton, heq]; omega)]
          have hne : (dedupStep st (mkTranscript st streamId text conf ts)).2.1 ≠ [] := by
            intro hnil
            rw [hnil] at heq
            simp at heq
            omega
          cases hL : (dedupStep st (mkTranscript st streamId text conf ts)).2.1 with
          | nil => exact absurd hL hne
          | cons a as => simp [hL]
        · intro hlt
          rw [hform, if_neg
            (by simp only [List.length_append, List.length_singleton]; omega)]

theorem bounded_fifo_log_witness :
    (addFinalTranscript smallBufferState "microphone" "bbb" 0 5000).1.transcripts.length
      ≤ smallBufferState.config.maxBufferSize ∧
    (addFinalTranscript smallBufferState "microphone" "bbb" 0 5000).1.transcripts
      = (dedupStep smallBufferState
          (mkTranscript smallBufferState "microphone" "bbb" 0 5000)).2.1.tail
        ++ [mkTranscript smallBufferState "microphone" "bbb" 0 5000] := by
  have h := bounded_fifo_log smallBufferState "microphone" "bbb" 0 5000
    (by decide) (by decide)
  exact ⟨h.1, ((h.2 (mkTranscript smallBufferState "microphone" "bbb" 0 5000)
    (by decide)).1 (by decide))⟩

/-- C1 fails on the code: the duplicate scan looks only at the 10 most recent
    stored transcripts, so a cross-stream near-duplicate that has fallen
    outside that window is retained alongside the new transcript.  Concretely,
    under the default configuration a microphone "hello world" at t=0 followed
    by ten unrelated microphone finals and a system "hello world" at t=11 ms
    leaves both "hello world" transcripts (different streams, 11 ms apart,
    similarity 1 ≥ 0.8) in the log. -/
theorem dedup_retention_invariant_fails :
    ¬ (∀ cfg : Config, cfg.filterDuplicates = true →
        ∀ calls : List FinalCall,
          dedupRetentionInvariant (runFinals (initialState cfg) calls)) := by
  intro h
  exact absurd (h defaultConfig rfl
    [⟨"microphone", "hello world", 0, 0⟩, ⟨"microphone", "f1", 0, 1⟩,
     ⟨"microphone", "f2", 0, 2⟩, ⟨"microphone", "f3", 0, 3⟩,
     ⟨"microphone", "f4", 0, 4⟩, ⟨"microphone", "f5", 0, 5⟩,
     ⟨"microphone", "f6", 0, 6⟩, ⟨"microphone", "f7", 0, 7⟩,
     ⟨"microphone", "f8", 0, 8⟩, ⟨"microphone", "f9", 0, 9⟩,
     ⟨"microphone", "f10", 0, 10⟩, ⟨"system", "hello world", 0, 11⟩])
    (by decide)

/-- C1, amended: the dedup guarantee is local to the scanned window.  When
    `addFinalTranscript` (with duplicate filtering on) retains a transcript by
    plain append — no removal, no eviction — none of the 10 most recent
    previously stored transcripts is a cross-stream in-window near-duplicate
    of it.  Older entries, or further matches beyond the first when the
    preferred-source branch removes one, can still coexist with it. -/
theorem dedup_scan_clears_recent_window (st : State) (streamId text : String)
    (conf : ℚ) (ts : Int) (t : Transcript)
    (hfd : st.config.filterDuplicates = true)
    (h : (addFinalTranscript st streamId text conf ts).2 = some t)
    (hpush : (addFinalTranscript st streamId text conf ts).1.transcripts
      = st.transcripts ++ [t]) :
    ∀ e ∈ sliceLast st.transcripts 10, ¬ crossStreamNearDup st.config t e := by
  by_cases he : jsTrim text = ""
  · exfalso; simp [addFinalTranscript, he] at h
  · by_cases hd : (dedupStep st (mkTranscript st streamId text conf ts)).1 = true
    · exfalso; simp [addFinalTranscript, he, hd] at h
    · rw [addFinal_retained_some st streamId text conf ts he hd] at h
      obtain rfl : mkTranscript st streamId text conf ts = t := by simpa using h
      rw [addFinal_retained_transcripts st streamId text conf ts he hd] at hpush
      have hLlen := dedupStep_log_length_le st (mkTranscript st streamId text conf ts)
      have hL : (dedupStep st (mkTranscript st streamId text conf ts)).2.1
          = st.transcripts := by
        by_cases hev : ((dedupStep st (mkTranscript st streamId text conf ts)).2.1
            ++ [mkTranscript st streamId text conf ts]).length
            > st.config.maxBufferSize
        · exfalso
          rw [if_pos hev] at hpush
          have hlvl := congrArg List.length hpush
          simp only [List.length_tail, List.length_append, List.length_singleton]
            at hlvl
          omega
        · rw [if_neg hev] at hpush
          exact List.append_cancel_right hpush
      have hdq : dedupStep st (mkTranscript st streamId text conf ts)
          = shouldFilterDuplicate st.config st.transcripts st.currentSession
              (mkTranscript st streamId text conf ts) := by
        simp [dedupStep, hfd]
      by_cases ho : suppressOption1 st.config st.transcripts
          (mkTranscript st streamId text conf ts) = true
      · exfalso
        apply hd
        rw [hdq]
        unfold shouldFilterDuplicate
        rw [if_pos ho]
      · have hscan : dedupStep st (mkTranscript st streamId text conf ts)
            = scanRecent st.config st.transcripts st.currentSession
                (mkTranscript st streamId text conf ts)
                (sliceLast st.transcripts 10) := by
          rw [hdq]
          unfold shouldFilterDuplicate
          rw [if_neg ho]
        refine scanRecent_no_match st.config st.transcripts st.currentSession
          (mkTranscript st streamId text conf ts)
          (sliceLast st.transcripts 10) (sliceLast_subset _ _) ?_ ?_
        · rw [← hscan]
          exact Bool.eq_false_iff.mpr hd
        · rw [← hscan]
          exact hL

theorem dedup_scan_clears_recent_window_witness :
    oneEntryState.config.filterDuplicates = true
      ∧ sampleEntry ∈ sliceLast oneEntryState.transcripts 10
      ∧ decide (crossStreamNearDup oneEntryState.config
          (mkTranscript oneEntryState "microphone" "far away" 0 9000) sampleEntry)
        = false :=
  ⟨rfl, by decide, decide_eq_false
    (dedup_scan_clears_recent_window oneEntryState "microphone" "far away" 0 9000
      (mkTranscript oneEntryState "microphone" "far away" 0 9000)
      rfl (by decide) (by decide) sampleEntry (by decide))⟩

/-- C2 fails on the code: `startRecording` creates the transcript session
    before opening any recognition session, `startRecognition` swallows its
    own failures (returns `false`, which `startRecording` never reads), and
    the catch-block `stopRecording()` is a no-op because `isRecording` is
    still false.  With the second (system) session failing to open, the call
    returns success, the transcript session exists, and the first recognition
    session is left open — none of the three claimed outcomes holds. -/
theorem start_recording_no_rollback :
    ¬ ((vmStartRecording vmReady envSecondOpenFails 0 "s1" "dual" "en-US").2 = false ∧
       (vmStartRecording vmReady envSecondOpenFails 0 "s1" "dual" "en-US").1.activeStreams
         = [] ∧
       (vmStartRecording vmReady envSecondOpenFails 0 "s1" "dual" "en-US").1.tm.currentSession
         = none) := by
  decide

/-- C2, amended: a failure to open the second recognition session is
    swallowed.  Starting from an initialized, idle manager, when the
    microphone session opens, the system session fails to open and audio
    capture starts, `startRecording` returns `true`, the transcript session
    (created before recognition was attempted) is active, only the microphone
    recognition session is registered, and recording is marked in progress. -/
theorem start_recording_swallows_open_failure
    (vm : VMState) (env : VMEnv) (now : Int) (sid cm lang : String)
    (hinit : vm.isInitialized = true) (hrec : vm.isRecording = false)
    (hmic : env.micOpenFails = false) (hsys : env.sysOpenFails = true)
    (hcap : env.captureStarts = true) (hdual : env.dualCapture = true)
    (hnm : "microphone" ∉ vm.activeStreams) :
    (vmStartRecording vm env now sid cm lang).2 = true ∧
    (vmStartRecording vm env now sid cm lang).1.activeStreams
      = "microphone" :: vm.activeStreams ∧
    (vmStartRecording vm env now sid cm lang).1.tm.currentSession
      = some { id := sid, startTime := now, endTime := none, transcripts := []
               metadata := { captureMode := cm, language := lang } } ∧
    (vmStartRecording vm env now sid cm lang).1.isRecording = true := by
  refine ⟨?_, ?_, ?_, ?_⟩ <;>
    simp [vmStartRecording, startSession, svcStartRecognition,
      hinit, hrec, hmic, hsys, hcap, hdual, hnm]

theorem start_recording_swallows_open_failure_witness :
    (vmStartRecording vmReady envSecondOpenFails 0 "s1" "dual" "en-US").2 = true ∧
    (vmStartRecording vmReady envSecondOpenFails 0 "s1" "dual" "en-US").1.activeStreams
      = ["microphone"] ∧
    (vmStartRecording vmReady envSecondOpenFails 0 "s1" "dual" "en-US").1.tm.currentSession
      = some { id := "s1", startTime := 0, endTime := none, transcripts := []
               metadata := { captureMode := "dual", language := "en-US" } } ∧
    (vmStartRecording vmReady envSecondOpenFails 0 "s1" "dual" "en-US").1.isRecording
      = true := by
  have h := start_recording_swallows_open_failure vmReady envSecondOpenFails
    0 "s1" "dual" "en-US" rfl rfl rfl rfl rfl rfl (by decide)
  exact h

/-- C8 fails on the code: the export switch accepts the format strings
    `json`, `txt`, `csv` and `srt`; the names `text` and `subtitle` used by
    the claim fall into the `default` arm and throw. -/
theorem export_spec_format_names_rejected :
    exportTranscripts (initialState defaultConfig) "text" false
      = .error "Unsupported export format: text" ∧
    exportTranscripts (initialState defaultConfig) "subtitle" false
      = .error "Unsupported export format: subtitle" := by
  constructor <;> rfl

/-- C8, amended: export succeeds for every state in each of the four formats
    the code accepts — `json`, `txt`, `csv`, `srt` (case-insensitively) — and
    the SRT subtitle export gives each entry an end time equal to the next
    entry's start time, with a fixed 3-second duration for the last entry. -/
theorem export_supported_formats_and_srt_end_times :
    (∀ st : State,
      (exportTranscripts st "json" false).isOk = true ∧
      (exportTranscripts st "txt" false).isOk = true ∧
      (exportTranscripts st "csv" false).isOk = true ∧
      (exportTranscripts st "srt" false).isOk = true) ∧
    (∀ (ts : List Transcript) (i : Nat) (nxt : Transcript),
      ts[i + 1]? = some nxt → srtEndTime ts i = nxt.timestamp) ∧
    (∀ (ts : List Transcript) (t : Transcript),
      ts ≠ [] → ts.getLast? = some t →
      srtEndTime ts (ts.length - 1) = t.timestamp + 3000) := by
  refine ⟨fun st => ?_, fun ts i nxt h => ?_, fun ts t hne hlast => ?_⟩
  · refine ⟨?_, ?_, ?_, ?_⟩ <;> rfl
  · simp [srtEndTime, h]
  · have h1 : ts.length - 1 + 1 = ts.length := by
      cases ts with
      | nil => exact absurd rfl hne
      | cons a as => simp
    have h2 : ts[ts.length - 1 + 1]? = none := by
      rw [h1]; exact List.getElem?_length ts
    have h3 : ts[ts.length - 1]? = some t := by
      rw [← List.getLast?_eq_getElem?]; exact hlast
    simp [srtEndTime, h2, h3]

theorem export_supported_formats_witness :
    ((exportTranscripts smallBufferState "json" false).isOk = true ∧
     (exportTranscripts smallBufferState "txt" false).isOk = true ∧
     (exportTranscripts smallBufferState "csv" false).isOk = true ∧
     (exportTranscripts smallBufferState "srt" false).isOk = true) ∧
    srtEndTime [sampleEntry, sampleEntry] 0 = sampleEntry.timestamp ∧
    srtEndTime [sampleEntry, sampleEntry] 1 = sampleEntry.timestamp + 3000 := by
  refine ⟨export_supported_formats_and_srt_end_times.1 smallBufferState, ?_, ?_⟩
  · exact export_supported_formats_and_srt_end_times.2.1
      [sampleEntry, sampleEntry] 0 sampleEntry rfl
  · exact export_supported_formats_and_srt_end_times.2.2
      [sampleEntry, sampleEntry] sampleEntry (by decide) rfl

theorem end_session_seals_log_snapshot_witness :
    ∃ sealed,
      (endSession
        { config := defaultConfig
          transcripts := []
          interimTranscripts := fun _ => none
          currentSession := some
            { id := "s1", startTime := 0, endTime := none, transcripts := []
              metadata := { captureMode := "dual", language := "en-US" } }
          sessionId := some "s1"
          nextId := 0 } 99).2 = some sealed ∧
      sealed.transcripts = [] ∧
      sealed.transcripts.length ≤ defaultConfig.maxBufferSize ∧
      ∀ t, t ∉ ([] : List Transcript) → t ∉ sealed.transcripts :=
  end_session_seals_log_snapshot _ 99 _ rfl (by decide)

/-! ## C9: decimal digits round trip -/

theorem digitChar_spec (d : Nat) (h : d < 10) :
    isDigitChar (digitChar d) = true ∧ (digitChar d).toNat - 48 = d ∧
    (digitChar d).toNat = 48 + d := by
  interval_cases d <;> exact ⟨by decide, by decide, by decide⟩

theorem natDigitsAux_fuel_eq (n : Nat) :
    ∀ fuel fuel', n < fuel → n < fuel' →
    natDigitsAux fuel n = natDigitsAux fuel' n := by
  induction n using Nat.strong_induction_on with
  | _ n ih =>
    intro fuel fuel' h h'
    match fuel, fuel', h, h' with
    | f + 1, f' + 1, h, h' =>
      simp only [natDigitsAux]
      by_cases h10 : n < 10
      · simp [h10]
      · rw [if_neg h10, if_neg h10,
          ih (n / 10) (Nat.div_lt_self (by omega) (by omega)) f f' (by omega) (by omega)]

theorem natDigits_unfold (n : Nat) :
    natDigits n =
      if n < 10 then [digitChar n]
      else natDigits (n / 10) ++ [digitChar (n % 10)] := by
  show natDigitsAux (n + 1) n = _
  simp only [natDigitsAux]
  by_cases h10 : n < 10
  · simp [h10]
  · rw [if_neg h10, if_neg h10,
      natDigitsAux_fuel_eq (n / 10) n (n / 10 + 1)
        (Nat.div_lt_self (by omega) (by omega)) (Nat.lt_succ_self _)]
    rfl

theorem natDigits_ne_nil (n : Nat) : natDigits n ≠ [] := by
  rw [natDigits_unfold]
  split <;> simp

theorem natDigits_digits (n : Nat) : ∀ c ∈ natDigits n, isDigitChar c = true := by
  induction n using Nat.strong_induction_on with
  | _ n ih =>
    rw [natDigits_unfold]
    intro c hc
    by_cases h10 : n < 10
    · rw [if_pos h10] at hc
      rw [List.mem_singleton] at hc
      exact hc ▸ (digitChar_spec n h10).1
    · rw [if_neg h10] at hc
      rcases List.mem_append.mp hc with h1 | h2
      · exact ih (n / 10) (Nat.div_lt_self (by omega) (by omega)) c h1
      · rw [List.mem_singleton] at h2
        exact h2 ▸ (digitChar_spec (n % 10) (Nat.mod_lt _ (by omega))).1

theorem natDigits_cons (n : Nat) :
    ∃ c t, natDigits n = c :: t ∧ isDigitChar c = true := by
  match h : natDigits n with
  | [] => exact absurd h (natDigits_ne_nil n)
  | c :: t => exact ⟨c, t, rfl, natDigits_digits n c (h ▸ List.mem_cons_self ..)⟩

theorem takeDigitsAux_stop (l : List Char) (h : noDigitStart l = true)
    (acc cnt : Nat) : takeDigitsAux acc cnt l = (acc, cnt, l) := by
  match l with
  | [] => rfl
  | c :: t =>
    simp only [noDigitStart, Bool.not_eq_true'] at h
    simp [takeDigitsAux, h]

theorem takeDigitsAux_run (ds : List Char) (hds : ∀ c ∈ ds, isDigitChar c = true)
    (rest : List Char) (hrest : noDigitStart rest = true) :
    ∀ acc cnt, takeDigitsAux acc cnt (ds ++ rest)
      = (ds.foldl (fun a c => a * 10 + (c.toNat - 48)) acc, cnt + ds.length, rest) := by
  induction ds with
  | nil => intro acc cnt; simpa using takeDigitsAux_stop rest hrest acc cnt
  | cons c t ih =>
    intro acc cnt
    have hc : isDigitChar c = true := hds c (List.mem_cons_self _ _)
    simp only [List.cons_append, takeDigitsAux, hc, if_pos]
    rw [List.append_eq, ih (fun x hx => hds x (List.mem_cons_of_mem _ hx))]
    simp only [List.foldl_cons, List.length_cons, Prod.mk.injEq]
    exact ⟨trivial, by omega, trivial⟩

theorem foldl_natDigits (n : Nat) :
    ∀ acc, (natDigits n).foldl (fun a c => a * 10 + (c.toNat - 48)) acc
      = acc * 10 ^ (natDigits n).length + n := by
  induction n using Nat.strong_induction_on with
  | _ n ih =>
    intro acc
    rw [natDigits_unfold]
    by_cases h10 : n < 10
    · rw [if_pos h10]
      simp only [List.foldl_cons, List.foldl_nil, List.length_singleton]
      rw [(digitChar_spec n h10).2.1]
      ring
    · rw [if_neg h10]
      rw [List.foldl_append, ih (n / 10) (Nat.div_lt_self (by omega) (by omega)) acc]
      simp only [List.foldl_cons, List.foldl_nil, List.length_append,
        List.length_singleton]
      rw [(digitChar_spec (n % 10) (Nat.mod_lt _ (by omega))).2.1]
      have hdm := Nat.div_add_mod n 10
      calc (acc * 10 ^ (natDigits (n / 10)).length + n / 10) * 10 + n % 10
          = acc * (10 ^ (natDigits (n / 10)).length * 10) + (10 * (n / 10) + n % 10) := by
            ring
        _ = acc * 10 ^ ((natDigits (n / 10)).length + 1) + n := by
            rw [hdm, Nat.pow_succ]

theorem padDigits_length (k : Nat) : ∀ v, (padDigits k v).length = k := by
  induction k with
  | zero => intro v; rfl
  | succ k ih => intro v; simp [padDigits, ih]

theorem padDigits_digits (k : Nat) :
    ∀ v, ∀ c ∈ padDigits k v, isDigitChar c = true := by
  induction k with
  | zero => intro v c hc; simp [padDigits] at hc
  | succ k ih =>
    intro v c hc
    simp only [padDigits] at hc
    rcases List.mem_append.mp hc with h1 | h2
    · exact ih (v / 10) c h1
    · rw [List.mem_singleton] at h2
      exact h2 ▸ (digitChar_spec (v % 10) (Nat.mod_lt _ (by omega))).1

theorem foldl_padDigits (k : Nat) :
    ∀ v, v < 10 ^ k →
    ∀ acc, (padDigits k v).foldl (fun a c => a * 10 + (c.toNat - 48)) acc
      = acc * 10 ^ k + v := by
  induction k with
  | zero =>
    intro v hv acc
    simp only [padDigits, List.foldl_nil, pow_zero]
    omega
  | succ k ih =>
    intro v hv acc
    simp only [padDigits, List.foldl_append, List.foldl_cons, List.foldl_nil]
    rw [ih (v / 10) (by rw [Nat.pow_succ] at hv; omega) acc]
    rw [(digitChar_spec (v % 10) (Nat.mod_lt _ (by omega))).2.1]
    have hdm := Nat.div_add_mod v 10
    calc (acc * 10 ^ k + v / 10) * 10 + v % 10
        = acc * (10 ^ k * 10) + (10 * (v / 10) + v % 10) := by ring
      _ = acc * 10 ^ (k + 1) + v := by rw [hdm, Nat.pow_succ]

theorem numDelim_noDigitStart (l : List Char) (h : numDelim l = true) :
    noDigitStart l = true := by
  cases l with
  | nil => rfl
  | cons c t =>
    simp only [numDelim, Bool.not_eq_true', Bool.or_eq_false_iff] at h
    simp [noDigitStart, h.1]

theorem numDelim_head (c : Char) (t : List Char) (h : numDelim (c :: t) = true) :
    isDigitChar c = false ∧ c ≠ '.' := by
  simp only [numDelim, Bool.not_eq_true', Bool.or_eq_false_iff,
    beq_eq_false_iff_ne] at h
  exact h

theorem isDigitChar_bounds (c : Char) (h : isDigitChar c = true) :
    48 ≤ c.toNat ∧ c.toNat ≤ 57 := by
  simpa [isDigitChar] using h

theorem isDigitChar_not_special (c : Char) (h : isDigitChar c = true) :
    c ≠ '-' ∧ c ≠ '.' ∧ c ≠ '"' ∧ c ≠ 'n' ∧ isJsonWs c = false := by
  have hofn := Char.ofNat_toNat c
  obtain ⟨hb1, hb2⟩ := isDigitChar_bounds c h
  generalize hg : c.toNat = n at hb1 hb2 hofn
  interval_cases n <;> (rw [← hofn]; decide)

theorem padDigits_cons (k v : Nat) (hk : k ≠ 0) :
    ∃ c t, padDigits k v = c :: t ∧ isDigitChar c = true := by
  match h : padDigits k v with
  | [] =>
    have := padDigits_length k v
    rw [h] at this
    exact absurd this.symm hk
  | c :: t => exact ⟨c, t, rfl, padDigits_digits k v c (h ▸ List.mem_cons_self ..)⟩

/-- The plain-decimal number codec round-trip: parsing a printed rational
    recovers it whenever it has a finite decimal expansion and the remainder
    cannot extend the number. -/
theorem parseNumber_print (q : ℚ) (hq : FiniteDecimal q) (rest : List Char)
    (hrest : numDelim rest = true) :
    parseNumber (printQChars q ++ rest) = some (q, rest) := by
  have hden : q.den ≠ 0 := q.den_nz
  have hq' : q.den ∣ 10 ^ decExponent q.den := hq
  have hc1 : q.den * (10 ^ decExponent q.den / q.den) = 10 ^ decExponent q.den :=
    Nat.mul_div_cancel' hq'
  have hcne : 10 ^ decExponent q.den / q.den ≠ 0 := by
    intro h0
    rw [h0, Nat.mul_zero] at hc1
    exact absurd hc1.symm (Nat.pos_iff_ne_zero.mp (Nat.pos_pow_of_pos _ (by omega)))
  have hmval : q.num.natAbs * 10 ^ decExponent q.den / q.den
      = q.num.natAbs * (10 ^ decExponent q.den / q.den) :=
    Nat.mul_div_assoc q.num.natAbs hq'
  -- the reconstructed rational equals `q`
  have key : mkRat ((if q.num < 0 then (-1 : Int) else 1)
      * Int.ofNat (q.num.natAbs * 10 ^ decExponent q.den / q.den))
      (10 ^ decExponent q.den) = q := by
    rw [Rat.mkRat_eq_div, hmval]
    generalize hC : 10 ^ decExponent q.den / q.den = C at hc1 hcne ⊢
    have hsm : ((if q.num < 0 then (-1 : Int) else 1)
        * Int.ofNat (q.num.natAbs * C)) = q.num * (C : Int) := by
      rw [Int.ofNat_eq_coe, Nat.cast_mul]
      by_cases hn : q.num < 0
      · rw [if_pos hn]
        have h1 : (q.num.natAbs : Int) = -q.num := by omega
        rw [h1]; ring
      · rw [if_neg hn]
        have h1 : (q.num.natAbs : Int) = q.num := by omega
        rw [h1]; ring
    rw [hsm, ← hc1]
    push_cast
    rw [mul_div_mul_right _ _ (show (C : ℚ) ≠ 0 from Nat.cast_ne_zero.mpr hcne)]
    exact Rat.num_div_den q
  generalize hM : q.num.natAbs * 10 ^ decExponent q.den / q.den = M at key
  by_cases hk0 : decExponent q.den = 0
  · -- integer form
    rw [hk0, pow_zero] at key
    obtain ⟨c0, t0, hnd, hc0⟩ := natDigits_cons M
    obtain ⟨hn1, _hn2, _hn3, _hn4, _hn5⟩ := isDigitChar_not_special c0 hc0
    have htd := takeDigitsAux_run (natDigits M) (natDigits_digits M) rest
      (numDelim_noDigitStart rest hrest) 0 0
    rw [foldl_natDigits] at htd
    simp only [Nat.zero_mul, Nat.zero_add] at htd
    rw [hnd] at htd
    simp only [List.cons_append] at htd
    have hdot : ¬ (rest.head? = some '.') := by
      cases rest with
      | nil => simp
      | cons cr tr =>
        obtain ⟨_, hcr2⟩ := numDelim_head cr tr hrest
        simp [hcr2]
    by_cases hn : q.num < 0
    · have harg : printQChars q ++ rest = '-' :: (c0 :: (t0 ++ rest)) := by
        simp only [printQChars]
        rw [hM, if_pos hn, if_pos hk0, hnd]
        simp
      rw [harg]
      simp only [parseNumber, List.head?_cons, List.tail_cons, eq_self_iff_true,
        ite_true, headIsDigit, hc0, htd]
      rw [if_neg hdot]
      rw [if_pos hn] at key
      rw [key]
    · have harg : printQChars q ++ rest = c0 :: (t0 ++ rest) := by
        simp only [printQChars]
        rw [hM, if_neg hn, if_pos hk0, hnd]
        simp
      rw [harg]
      simp only [parseNumber, List.head?_cons, Option.some.injEq]
      rw [if_neg hn1]
      simp only [headIsDigit, hc0, eq_self_iff_true, ite_true, htd]
      rw [if_neg hdot, if_neg Bool.false_ne_true]
      rw [if_neg hn] at key
      rw [key]
  · -- fractional form
    have hkpos : 0 < decExponent q.den := Nat.pos_of_ne_zero hk0
    obtain ⟨c0, t0, hnd, hc0⟩ := natDigits_cons (M / 10 ^ decExponent q.den)
    obtain ⟨hn1, _hn2, _hn3, _hn4, _hn5⟩ := isDigitChar_not_special c0 hc0
    obtain ⟨c2, t2, hpd, hc2⟩ :=
      padDigits_cons (decExponent q.den) (M % 10 ^ decExponent q.den) hk0
    have htf := takeDigitsAux_run
      (padDigits (decExponent q.den) (M % 10 ^ decExponent q.den))
      (padDigits_digits _ _) rest (numDelim_noDigitStart rest hrest) 0 0
    rw [foldl_padDigits _ _ (Nat.mod_lt _ (Nat.pos_pow_of_pos _ (by omega)))] at htf
    simp only [Nat.zero_mul, Nat.zero_add, padDigits_length] at htf
    have htd := takeDigitsAux_run (natDigits (M / 10 ^ decExponent q.den))
      (natDigits_digits _)
      ('.' :: (padDigits (decExponent q.den) (M % 10 ^ decExponent q.den) ++ rest))
      (by rfl) 0 0
    rw [foldl_natDigits] at htd
    simp only [Nat.zero_mul, Nat.zero_add] at htd
    rw [hnd] at htd
    simp only [List.cons_append] at htd
    have hrecon : M / 10 ^ decExponent q.den * 10 ^ decExponent q.den
        + M % 10 ^ decExponent q.den = M := by
      have h := Nat.div_add_mod M (10 ^ decExponent q.den)
      rw [Nat.mul_comm] at h
      exact h
    by_cases hn : q.num < 0
    · have harg : printQChars q ++ rest
          = '-' :: (c0 :: (t0 ++ ('.' :: (padDigits (decExponent q.den)
              (M % 10 ^ decExponent q.den) ++ rest)))) := by
        simp only [printQChars]
        rw [hM, if_pos hn, if_neg hk0, hnd]
        simp
      have hhd : headIsDigit (padDigits (decExponent q.den)
          (M % 10 ^ decExponent q.den) ++ rest) = true := by
        rw [hpd]
        simp [headIsDigit, hc2]
      rw [harg]
      simp only [parseNumber, List.head?_cons, List.tail_cons, eq_self_iff_true,
        ite_true, headIsDigit, hc0]
      rw [htd]
      simp only [List.head?_cons, List.tail_cons, eq_self_iff_true, ite_true,
        hhd, htf]
      rw [hrecon]
      rw [if_pos hn] at key
      rw [key, hpd]
      simp [hc2]
    · have harg : printQChars q ++ rest
          = c0 :: (t0 ++ ('.' :: (padDigits (decExponent q.den)
              (M % 10 ^ decExponent q.den) ++ rest))) := by
        simp only [printQChars]
        rw [hM, if_neg hn, if_neg hk0, hnd]
        simp
      have hhd : headIsDigit (padDigits (decExponent q.den)
          (M % 10 ^ decExponent q.den) ++ rest) = true := by
        rw [hpd]
        simp [headIsDigit, hc2]
      rw [harg]
      simp only [parseNumber, List.head?_cons, Option.some.injEq]
      rw [if_neg hn1]
      simp only [headIsDigit, hc0, eq_self_iff_true, ite_true]
      rw [htd]
      simp only [List.head?_cons, List.tail_cons, eq_self_iff_true, ite_true,
        hhd, htf]
      rw [if_neg Bool.false_ne_true]
      rw [hrecon]
      rw [if_neg hn] at key
      rw [key, hpd]
      simp [hc2]

theorem hexVal_toHexChar (n : Nat) (h : n < 16) : hexVal (toHexChar n) = some n := by
  interval_cases n <;> decide

theorem skipWs_ws_append (l : List Char) (h : ∀ c ∈ l, isJsonWs c = true)
    (r : List Char) : skipWs (l ++ r) = skipWs r := by
  induction l with
  | nil => rfl
  | cons c t ih =>
    simp only [List.cons_append, skipWs]
    rw [if_pos (h c (List.mem_cons_self c t))]
    exact ih (fun x hx => h x (List.mem_cons_of_mem c hx))

theorem skipWs_cons_not_ws (c : Char) (h : isJsonWs c = false) (r : List Char) :
    skipWs (c :: r) = c :: r := by
  simp [skipWs, h]

theorem isJsonWs_cases (c : Char) (h : isJsonWs c = true) :
    c = ' ' ∨ c = '\t' ∨ c = '\n' ∨ c = '\r' := by
  simp only [isJsonWs, Bool.or_eq_true, beq_iff_eq] at h
  tauto

theorem numDelim_ws (c : Char) (h : isJsonWs c = true) (t : List Char) :
    numDelim (c :: t) = true := by
  rcases isJsonWs_cases c h with h | h | h | h <;> subst h <;> rfl

theorem numDelim_ws_append (clo : List Char) (h : ∀ c ∈ clo, isJsonWs c = true)
    (l : List Char) (hl : numDelim l = true) : numDelim (clo ++ l) = true := by
  cases clo with
  | nil => simpa using hl
  | cons c t => exact numDelim_ws c (h c (List.mem_cons_self c t)) _

/-- Parsing the escape sequence the printer emits for one character pushes
    exactly that character onto the accumulator. -/
theorem parseStringAux_escape (c : Char) (acc cs : List Char) :
    parseStringAux acc (escapeJsonChar c ++ cs) = parseStringAux (c :: acc) cs := by
  by_cases h1 : c = '"'
  · subst h1; rfl
  by_cases h2 : c = '\\'
  · subst h2; rfl
  by_cases h3 : c = '\n'
  · subst h3; rfl
  by_cases h4 : c = '\r'
  · subst h4; rfl
  by_cases h5 : c = '\t'
  · subst h5; rfl
  by_cases h8 : c.toNat = 8
  · have hc : c = Char.ofNat 8 := by rw [← Char.ofNat_toNat c, h8]
    subst hc; rfl
  by_cases h12 : c.toNat = 12
  · have hc : c = Char.ofNat 12 := by rw [← Char.ofNat_toNat c, h12]
    subst hc; rfl
  by_cases h32 : c.toNat < 32
  · have hesc : escapeJsonChar c
        = ['\\', 'u', '0', '0', toHexChar (c.toNat / 16), toHexChar (c.toNat % 16)] := by
      simp only [escapeJsonChar]
      rw [if_neg h1, if_neg h2, if_neg h3, if_neg h4, if_neg h5, if_neg h8,
        if_neg h12, if_pos h32]
    rw [hesc]
    simp only [List.cons_append, List.nil_append]
    show (match hexVal '0', hexVal '0', hexVal (toHexChar (c.toNat / 16)),
        hexVal (toHexChar (c.toNat % 16)) with
      | some va, some vb, some vc, some vd =>
        parseStringAux (Char.ofNat (((va * 16 + vb) * 16 + vc) * 16 + vd) :: acc) cs
      | _, _, _, _ => none) = parseStringAux (c :: acc) cs
    rw [hexVal_toHexChar (c.toNat / 16) (by omega),
      hexVal_toHexChar (c.toNat % 16) (by omega)]
    show parseStringAux
        (Char.ofNat (((0 * 16 + 0) * 16 + c.toNat / 16) * 16 + c.toNat % 16) :: acc) cs
      = parseStringAux (c :: acc) cs
    rw [(by omega : ((0 * 16 + 0) * 16 + c.toNat / 16) * 16 + c.toNat % 16 = c.toNat),
      Char.ofNat_toNat]
  · have hesc : escapeJsonChar c = [c] := by
      simp only [escapeJsonChar]
      rw [if_neg h1, if_neg h2, if_neg h3, if_neg h4, if_neg h5, if_neg h8,
        if_neg h12, if_neg h32]
    rw [hesc]
    simp only [List.cons_append, List.nil_append]
    rw [parseStringAux.eq_def]
    simp [h1, h2, h32]

/-- The escaped string body followed by the closing quote parses back to the
    original characters. -/
theorem parseStringAux_flat (l : List Char) : ∀ (acc cs : List Char),
    parseStringAux acc (escapeJsonList l ++ '"' :: cs) = some (acc.reverse ++ l, cs) := by
  induction l with
  | nil =>
    intro acc cs
    have h0 : escapeJsonList [] = [] := rfl
    rw [h0, List.nil_append, parseStringAux.eq_def]
    simp
  | cons c t ih =>
    intro acc cs
    have hl : escapeJsonList (c :: t) = escapeJsonChar c ++ escapeJsonList t := by
      simp [escapeJsonList]
    rw [hl, List.append_assoc, parseStringAux_escape, ih]
    simp

/-- A printed rational starts with a minus sign or a digit. -/
theorem printQChars_cons (q : ℚ) :
    ∃ c t, printQChars q = c :: t ∧ (c = '-' ∨ isDigitChar c = true) := by
  obtain ⟨c0, t0, hnd, hc0⟩ :=
    natDigits_cons (q.num.natAbs * 10 ^ decExponent q.den / q.den)
  obtain ⟨c1, t1, hnd1, hc1⟩ := natDigits_cons
    (q.num.natAbs * 10 ^ decExponent q.den / q.den / 10 ^ decExponent q.den)
  simp only [printQChars]
  by_cases hk : decExponent q.den = 0
  · rw [if_pos hk]
    by_cases hn : q.num < 0
    · rw [if_pos hn]
      exact ⟨'-', _, rfl, Or.inl rfl⟩
    · rw [if_neg hn, hnd]
      exact ⟨c0, t0, by simp, Or.inr hc0⟩
  · rw [if_neg hk]
    by_cases hn : q.num < 0
    · rw [if_pos hn]
      exact ⟨'-', _, rfl, Or.inl rfl⟩
    · rw [if_neg hn, hnd1]
      exact ⟨c1, t1 ++ '.' :: padDigits (decExponent q.den)
        (q.num.natAbs * 10 ^ decExponent q.den / q.den % 10 ^ decExponent q.den),
        by simp, Or.inr hc1⟩

/-- Printed values never start with whitespace. -/
theorem skipWs_printJVal (v : JVal) (r : List Char) :
    skipWs (printJVal v ++ r) = printJVal v ++ r := by
  cases v with
  | jnull => rfl
  | jstr s => rfl
  | jnum q =>
    obtain ⟨c, t, hc, hd⟩ := printQChars_cons q
    simp only [printJVal]
    rw [hc, List.cons_append]
    refine skipWs_cons_not_ws c ?_ _
    rcases hd with h | h
    · subst h; rfl
    · exact (isDigitChar_not_special c h).2.2.2.2

/-- The JSON-value codec round-trip for the values the printer emits. -/
theorem parseJVal_print (v : JVal) (hv : JValPrintable v) (rest : List Char)
    (hrest : numDelim rest = true) :
    parseJVal (printJVal v ++ rest) = some (v, rest) := by
  cases v with
  | jnull =>
    simp [printJVal, parseJVal, listStartsWith]
  | jstr s =>
    simp only [printJVal, printJString, List.cons_append, List.append_assoc,
      List.singleton_append, List.nil_append]
    simp only [parseJVal, List.head?_cons, List.tail_cons]
    rw [if_pos trivial, parseStringAux_flat]
    simp
  | jnum q =>
    obtain ⟨c, t, hc, hd⟩ := printQChars_cons q
    have hcne : c ≠ '"' ∧ c ≠ 'n' := by
      rcases hd with h | h
      · subst h; exact ⟨by decide, by decide⟩
      · obtain ⟨_, _, h3, h4, _⟩ := isDigitChar_not_special c h
        exact ⟨h3, h4⟩
    have h1 : ¬ ((printQChars q ++ rest).head? = some '"') := by
      rw [hc, List.cons_append, List.head?_cons]
      simp [hcne.1]
    have h2 : ¬ (listStartsWith ['n', 'u', 'l', 'l'] (printQChars q ++ rest) = true) := by
      rw [hc, List.cons_append]
      simp only [listStartsWith, Bool.and_eq_true, beq_iff_eq]
      intro hcon
      exact hcne.2 hcon.1.symm
    have h3 : (headIs '-' (printQChars q ++ rest)
        || headIsDigit (printQChars q ++ rest)) = true := by
      rw [hc, List.cons_append]
      rcases hd with h | h
      · subst h; simp [headIs]
      · simp [headIs, headIsDigit, h]
    simp only [printJVal, parseJVal]
    rw [if_neg h1, if_neg h2, if_pos h3, parseNumber_print q hv rest hrest]
    rfl

/-- After the leading whitespace, a printed field starts at its opening
    quote. -/
theorem skipWs_field (f0 : String × JVal) (ind pre T : List Char)
    (hind : ∀ c ∈ ind, isJsonWs c = true) (hpre : ∀ c ∈ pre, isJsonWs c = true) :
    skipWs (pre ++ (printField ind f0 ++ T))
      = '"' :: (escapeJsonList f0.1.data
          ++ '"' :: ':' :: ' ' :: (printJVal f0.2 ++ T)) := by
  have hpf : pre ++ (printField ind f0 ++ T)
      = (pre ++ ind) ++ ('"' :: (escapeJsonList f0.1.data
          ++ '"' :: ':' :: ' ' :: (printJVal f0.2 ++ T))) := by
    simp [printField, printJString]
  have hws : ∀ c ∈ pre ++ ind, isJsonWs c = true := by
    intro c hc
    rcases List.mem_append.mp hc with h | h
    · exact hpre c h
    · exact hind c h
  rw [hpf, skipWs_ws_append _ hws, skipWs_cons_not_ws '"' rfl]

/-- Parsing one printed `"key": value` field consumes exactly the field and
    hands the remainder to the comma/brace dispatch. -/
theorem parseFields_step (f0 : String × JVal) (hv : JValPrintable f0.2)
    (ind pre T : List Char)
    (hind : ∀ c ∈ ind, isJsonWs c = true) (hpre : ∀ c ∈ pre, isJsonWs c = true)
    (hT : numDelim T = true) (fuel : Nat) :
    parseFields (fuel + 1) (pre ++ (printField ind f0 ++ T)) =
      (if (skipWs T).head? = some ',' then
        match parseFields fuel (skipWs T).tail with
        | some (ms, r5) => some (f0 :: ms, r5)
        | none => none
      else if (skipWs T).head? = some '}' then some ([f0], (skipWs T).tail)
      else none) := by
  have hskip1 := skipWs_field f0 ind pre T hind hpre
  have hstr := parseStringAux_flat f0.1.data []
    (':' :: ' ' :: (printJVal f0.2 ++ T))
  rw [List.reverse_nil, List.nil_append] at hstr
  have hsv : skipWs (' ' :: (printJVal f0.2 ++ T)) = printJVal f0.2 ++ T := by
    simp only [skipWs]
    rw [if_pos (show isJsonWs ' ' = true from rfl)]
    exact skipWs_printJVal f0.2 T
  simp only [parseFields]
  rw [hskip1]
  simp only [List.head?_cons, List.tail_cons]
  rw [if_pos trivial, hstr]
  simp only [skipWs_cons_not_ws ':' rfl, List.head?_cons, List.tail_cons]
  rw [if_pos trivial]
  rw [hsv, parseJVal_print f0.2 hv T hT]

/-- One-or-more printed fields followed by the closing brace parse back to
    exactly those fields. -/
theorem parseFields_print (fvs : List (String × JVal)) : ∀ (f0 : String × JVal),
    (∀ kv ∈ f0 :: fvs, JValPrintable kv.2) →
    ∀ ind : List Char, (∀ c ∈ ind, isJsonWs c = true) →
    ∀ pre : List Char, (∀ c ∈ pre, isJsonWs c = true) →
    ∀ clo : List Char, (∀ c ∈ clo, isJsonWs c = true) →
    ∀ (outerRest : List Char) (fuel : Nat), fvs.length < fuel →
    parseFields fuel (pre ++ (joinSep [',', '\n'] ((f0 :: fvs).map (printField ind))
      ++ (clo ++ '}' :: outerRest))) = some (f0 :: fvs, outerRest) := by
  induction fvs with
  | nil =>
    intro f0 hpr ind hind pre hpre clo hclo outerRest fuel hfuel
    cases fuel with
    | zero => omega
    | succ fuel =>
      have hskipT : skipWs (clo ++ '}' :: outerRest) = '}' :: outerRest := by
        rw [skipWs_ws_append clo hclo, skipWs_cons_not_ws '}' rfl]
      have hT : numDelim (clo ++ '}' :: outerRest) = true :=
        numDelim_ws_append clo hclo _ rfl
      simp only [List.map_cons, List.map_nil, joinSep]
      rw [parseFields_step f0 (hpr f0 (List.mem_cons_self f0 _)) ind pre
        (clo ++ '}' :: outerRest) hind hpre hT fuel]
      rw [hskipT]
      simp only [List.head?_cons, List.tail_cons]
      rw [if_neg (by decide), if_pos trivial]
  | cons f1 fvs ih =>
    intro f0 hpr ind hind pre hpre clo hclo outerRest fuel hfuel
    cases fuel with
    | zero => omega
    | succ fuel =>
      simp only [List.map_cons, joinSep, List.append_assoc, List.cons_append,
        List.nil_append]
      rw [parseFields_step f0 (hpr f0 (List.mem_cons_self f0 _)) ind pre
        (',' :: '\n' :: (joinSep [',', '\n']
          (printField ind f1 :: fvs.map (printField ind))
          ++ (clo ++ '}' :: outerRest))) hind hpre rfl fuel]
      rw [skipWs_cons_not_ws ',' rfl]
      simp only [List.head?_cons, List.tail_cons]
      rw [if_pos trivial]
      have ihh := ih f1 (fun kv hk => hpr kv (List.mem_cons_of_mem f0 hk))
        ind hind ['\n'] (by decide) clo hclo outerRest fuel (by
          simp only [List.length_cons] at hfuel ⊢
          omega)
      simp only [List.map_cons, List.singleton_append] at ihh
      rw [ihh]

theorem printField_ne_nil (ind : List Char) (kv : String × JVal) :
    printField ind kv ≠ [] := by
  simp [printField, printJString]

theorem joinSep_length (sep : List Char) : ∀ (ps : List (List Char)),
    (∀ p ∈ ps, p ≠ []) → ps.length ≤ (joinSep sep ps).length
  | [], _ => by simp [joinSep]
  | [x], h => by
    have hx := List.length_pos.mpr (h x (List.mem_cons_self x []))
    simpa [joinSep] using hx
  | x :: y :: xs, h => by
    have hx := List.length_pos.mpr (h x (List.mem_cons_self x _))
    have hrec := joinSep_length sep (y :: xs)
      (fun p hp => h p (List.mem_cons_of_mem x hp))
    simp only [joinSep, List.length_append, List.length_cons] at hrec ⊢
    omega

theorem joinSep_cons_append (sep x : List Char) (xs : List (List Char))
    (Y : List Char) : ∃ T, joinSep sep (x :: xs) ++ Y = x ++ T := by
  cases xs with
  | nil => exact ⟨Y, by simp [joinSep]⟩
  | cons y ys => exact ⟨sep ++ (joinSep sep (y :: ys) ++ Y), by simp [joinSep]⟩

theorem printJObj_cons (ind : List Char) (o : JObj) :
    ∃ t, printJObj ind o = '{' :: t := by
  obtain ⟨fs⟩ := o
  cases fs with
  | nil => exact ⟨['}'], rfl⟩
  | cons f fvs => exact ⟨_, rfl⟩

/-- The printed-object codec round-trip at any all-whitespace indent. -/
theorem parseJObj_print (o : JObj) (hfs : ∀ kv ∈ o.fields, JValPrintable kv.2)
    (ind : List Char) (hind : ∀ c ∈ ind, isJsonWs c = true) (rest : List Char) :
    parseJObj (printJObj ind o ++ rest) = some (o, rest) := by
  obtain ⟨fs⟩ := o
  cases fs with
  | nil => simp [printJObj, parseJObj, skipWs, isJsonWs]
  | cons f0 fvs =>
    have hind2 : ∀ c ∈ ind ++ [' ', ' '], isJsonWs c = true := by
      intro c hc
      rcases List.mem_append.mp hc with h | h
      · exact hind c h
      · have hc2 : c = ' ' := by simpa using h
        subst hc2; rfl
    have hclo2 : ∀ c ∈ '\n' :: ind, isJsonWs c = true := by
      intro c hc
      rcases List.mem_cons.mp hc with h | h
      · subst h; rfl
      · exact hind c h
    simp only [printJObj, List.cons_append, List.append_assoc, List.map_cons,
      List.nil_append, List.singleton_append]
    obtain ⟨T, hT⟩ := joinSep_cons_append [',', '\n']
      (printField (ind ++ [' ', ' ']) f0) (fvs.map (printField (ind ++ [' ', ' '])))
      ('\n' :: (ind ++ '}' :: rest))
    have hskipr := skipWs_field f0 (ind ++ [' ', ' ']) ['\n'] T hind2 (by decide)
    rw [List.singleton_append] at hskipr
    rw [← hT] at hskipr
    simp only [parseJObj, List.head?_cons, List.tail_cons]
    rw [if_pos trivial, hskipr]
    simp only [List.head?_cons]
    rw [if_neg (by decide)]
    have hjl := joinSep_length [',', '\n']
      (printField (ind ++ [' ', ' ']) f0 :: fvs.map (printField (ind ++ [' ', ' '])))
      (by
        intro p hp
        rcases List.mem_cons.mp hp with h | h
        · subst h; exact printField_ne_nil _ f0
        · obtain ⟨kv, _, hkv⟩ := List.mem_map.mp h
          rw [← hkv]; exact printField_ne_nil _ kv)
    simp only [List.length_map, List.length_cons] at hjl
    have hpp := parseFields_print fvs f0 hfs (ind ++ [' ', ' ']) hind2
      ['\n'] (by decide) ('\n' :: ind) hclo2 rest
      (('\n' :: (joinSep [',', '\n']
        (printField (ind ++ [' ', ' ']) f0 :: fvs.map (printField (ind ++ [' ', ' '])))
        ++ '\n' :: (ind ++ '}' :: rest))).length + 1)
      (by
        simp only [List.length_cons, List.length_append]
        omega)
    simp only [List.map_cons, List.singleton_append, List.cons_append,
      List.nil_append] at hpp
    rw [hpp]
    rfl

/-- Skipping whitespace before a printed array item lands on its opening
    brace. -/
theorem skipWs_obj (o : JObj) (pre T : List Char)
    (hpre : ∀ c ∈ pre, isJsonWs c = true) :
    skipWs (pre ++ (' ' :: ' ' :: (printJObj [' ', ' '] o ++ T)))
      = printJObj [' ', ' '] o ++ T := by
  have h2 : skipWs (' ' :: ' ' :: (printJObj [' ', ' '] o ++ T))
      = skipWs (printJObj [' ', ' '] o ++ T) := by
    rw [show (' ' :: ' ' :: (printJObj [' ', ' '] o ++ T) : List Char)
        = [' ', ' '] ++ (printJObj [' ', ' '] o ++ T) from rfl,
      skipWs_ws_append [' ', ' '] (by decide)]
  rw [skipWs_ws_append pre hpre, h2]
  obtain ⟨t0, h0⟩ := printJObj_cons [' ', ' '] o
  rw [h0, List.cons_append, skipWs_cons_not_ws '{' rfl, ← List.cons_append, ← h0]

/-- One-or-more printed array items followed by the closing bracket parse
    back to exactly those objects. -/
theorem parseObjs_print (os : List JObj) : ∀ (o0 : JObj),
    (∀ o ∈ o0 :: os, ∀ kv ∈ o.fields, JValPrintable kv.2) →
    ∀ pre : List Char, (∀ c ∈ pre, isJsonWs c = true) →
    ∀ clo : List Char, (∀ c ∈ clo, isJsonWs c = true) →
    ∀ (rest : List Char) (fuel : Nat), os.length < fuel →
    parseObjs fuel (pre ++ (joinSep [',', '\n']
        ((o0 :: os).map (fun o => ' ' :: ' ' :: printJObj [' ', ' '] o))
      ++ (clo ++ ']' :: rest))) = some (o0 :: os, rest) := by
  induction os with
  | nil =>
    intro o0 hpr pre hpre clo hclo rest fuel hfuel
    cases fuel with
    | zero => omega
    | succ fuel =>
      simp only [List.map_cons, List.map_nil, joinSep, List.append_assoc,
        List.cons_append, List.nil_append]
      simp only [parseObjs]
      rw [skipWs_obj o0 pre _ hpre,
        parseJObj_print o0 (hpr o0 (List.mem_cons_self o0 _)) [' ', ' ']
          (by decide) _]
      have hskipX : skipWs (clo ++ ']' :: rest) = ']' :: rest := by
        rw [skipWs_ws_append clo hclo, skipWs_cons_not_ws ']' rfl]
      simp only [hskipX, List.head?_cons, List.tail_cons]
      rw [if_neg (by decide), if_pos trivial]
  | cons o1 os ih =>
    intro o0 hpr pre hpre clo hclo rest fuel hfuel
    cases fuel with
    | zero => omega
    | succ fuel =>
      simp only [List.map_cons, joinSep, List.append_assoc, List.cons_append,
        List.nil_append]
      simp only [parseObjs]
      rw [skipWs_obj o0 pre _ hpre,
        parseJObj_print o0 (hpr o0 (List.mem_cons_self o0 _)) [' ', ' ']
          (by decide) _]
      simp only [skipWs_cons_not_ws ',' rfl, List.head?_cons, List.tail_cons]
      rw [if_pos trivial]
      have ihh := ih o1 (fun o ho => hpr o (List.mem_cons_of_mem o0 ho))
        ['\n'] (by decide) clo hclo rest fuel (by
          simp only [List.length_cons] at hfuel ⊢
          omega)
      simp only [List.map_cons, List.singleton_append, List.cons_append,
        List.nil_append] at ihh
      rw [ihh]

/-- The whole-document codec round-trip: a printed array of flat objects
    parses back to exactly those objects. -/
theorem parseJDoc_print (objs : List JObj)
    (hfs : ∀ o ∈ objs, ∀ kv ∈ o.fields, JValPrintable kv.2) (rest : List Char) :
    parseJDoc (printJDoc objs ++ rest) = some (objs, rest) := by
  cases objs with
  | nil => simp [printJDoc, parseJDoc, skipWs, isJsonWs]
  | cons o0 os =>
    simp only [printJDoc, List.cons_append, List.append_assoc, List.map_cons,
      List.nil_append, List.singleton_append]
    simp only [parseJDoc]
    rw [skipWs_cons_not_ws '[' rfl]
    simp only [List.head?_cons, List.tail_cons]
    rw [if_pos trivial]
    obtain ⟨T, hT⟩ := joinSep_cons_append [',', '\n']
      (' ' :: ' ' :: printJObj [' ', ' '] o0)
      (os.map (fun o => ' ' :: ' ' :: printJObj [' ', ' '] o))
      ('\n' :: ']' :: rest)
    simp only [List.cons_append] at hT
    have hsr := skipWs_obj o0 ['\n'] T (by decide)
    rw [List.singleton_append] at hsr
    rw [← hT] at hsr
    obtain ⟨t0, h0⟩ := printJObj_cons [' ', ' '] o0
    have hne : ¬ ((printJObj [' ', ' '] o0 ++ T).head? = some ']') := by
      rw [h0, List.cons_append, List.head?_cons]
      decide
    rw [hsr, if_neg hne]
    have hjl := joinSep_length [',', '\n']
      ((' ' :: ' ' :: printJObj [' ', ' '] o0) ::
        os.map (fun o => ' ' :: ' ' :: printJObj [' ', ' '] o))
      (by
        intro p hp
        rcases List.mem_cons.mp hp with h | h
        · subst h; simp
        · obtain ⟨o, _, hkv⟩ := List.mem_map.mp h
          rw [← hkv]; simp)
    simp only [List.length_map, List.length_cons] at hjl
    have hpp := parseObjs_print os o0 hfs ['\n'] (by decide) ['\n'] (by decide)
      rest
      (('\n' :: (joinSep [',', '\n']
        ((' ' :: ' ' :: printJObj [' ', ' '] o0) ::
          os.map (fun o => ' ' :: ' ' :: printJObj [' ', ' '] o))
        ++ '\n' :: ']' :: rest)).length + 1)
      (by
        simp only [List.length_cons, List.length_append]
        omega)
    simp only [List.map_cons, List.singleton_append, List.cons_append,
      List.nil_append] at hpp
    rw [hpp]

theorem finiteDecimal_int (n : Int) : FiniteDecimal (mkRat n 1) := by
  unfold FiniteDecimal
  rw [Rat.mkRat_one, Rat.den_intCast]
  exact Nat.one_dvd _

/-- Reading a transcript's printed object back recovers the transcript. -/
theorem decodeTranscript_encode (t : Transcript) :
    decodeTranscript (transcriptToJObj t) = some t := by
  obtain ⟨tid, sid, sp, tx, tg, conf, tts, ty, sess⟩ := t
  cases sess with
  | none =>
    simp [decodeTranscript, transcriptToJObj, jlookup, List.find?,
      jvalOfSessionId, decodeSessionId, qToNat?, qToInt?, Rat.mkRat_one]
  | some s =>
    simp [decodeTranscript, transcriptToJObj, jlookup, List.find?,
      jvalOfSessionId, decodeSessionId, qToNat?, qToInt?, Rat.mkRat_one]

/-- Decoding the printed objects of a transcript list recovers the list. -/
theorem decodeAll_encode (ts : List Transcript) :
    decodeAll (ts.map transcriptToJObj) = some ts := by
  induction ts with
  | nil => rfl
  | cons t ts ih =>
    simp only [List.map_cons, decodeAll, decodeTranscript_encode t, ih]

/-- **C9**: `exportTranscripts('json')` emits
    `JSON.stringify(transcripts, null, 2)` over the full transcript log, and
    parsing that export back (`JSON.parse` plus reading each flat object as a
    transcript record) recovers exactly the stored transcripts, for every
    state whose stored confidences have finite decimal expansions — as every
    IEEE double the JS code can store does. -/
theorem json_export_round_trip (st : State)
    (hconf : ∀ t ∈ st.transcripts, FiniteDecimal t.confidence) :
    exportTranscripts st "json" false
        = Except.ok (stringifyTranscripts st.transcripts)
      ∧ jsonParseTranscripts (stringifyTranscripts st.transcripts)
        = some st.transcripts := by
  constructor
  · have hfmt : jsToLower "json" = "json" := by decide
    cases hcs : st.currentSession with
    | none => simp [exportTranscripts, hcs, hfmt]
    | some s => simp [exportTranscripts, hcs, hfmt]
  · have hfs : ∀ o ∈ st.transcripts.map transcriptToJObj,
        ∀ kv ∈ o.fields, JValPrintable kv.2 := by
      intro o ho kv hkv
      obtain ⟨t, ht, rfl⟩ := List.mem_map.mp ho
      simp only [transcriptToJObj, List.mem_cons, List.not_mem_nil, or_false] at hkv
      rcases hkv with rfl | rfl | rfl | rfl | rfl | rfl | rfl | rfl | rfl
      · exact finiteDecimal_int _
      · exact trivial
      · exact trivial
      · exact trivial
      · exact trivial
      · exact hconf t ht
      · exact finiteDecimal_int _
      · exact trivial
      · cases t.sessionId <;> exact trivial
    have hdoc := parseJDoc_print (st.transcripts.map transcriptToJObj) hfs []
    rw [List.append_nil] at hdoc
    simp only [jsonParseTranscripts, stringifyTranscripts]
    rw [hdoc]
    simp [skipWs, decodeAll_encode]

/-- A concrete run of the JSON export round trip on the one-entry state
    `rtState`, whose stored confidence is the finite decimal `0.9`. -/
theorem json_export_round_trip_witness :
    (∀ t ∈ rtState.transcripts, FiniteDecimal t.confidence)
      ∧ (exportTranscripts rtState "json" false
          = Except.ok (stringifyTranscripts rtState.transcripts)
        ∧ jsonParseTranscripts (stringifyTranscripts rtState.transcripts)
          = some rtState.transcripts) :=
  ⟨by decide, json_export_round_trip rtState (by decide)⟩

end VoiceApp

